import Mathlib

/-!
# Verification of the hexwater tessellation prototype

A shallow embedding, in Lean 4, of the geospatial core implemented in
`examples/hexwater_prototype.py`: grid repair (`fill_buildup_and_water`),
hexagonal tessellation (`map_to_hexagons`), the anisotropic nearest-neighbour
index (`build_hex_spatial_index`, `find_nearest_hex_fast`), river snapping
(`snap_rivers_to_hexes`) and lake snapping (`point_in_polygon`,
`snap_lakes_to_hexes`).

Modelling conventions:
* Python floats are modelled by `ℚ`; `int(x)` is `pyInt` (truncation toward
  zero), `min`/`max` over a list are `pyMin`/`pyMax` (left folds, as Python
  folds the iterable).
* Calls into the external `h3` library are fields of an `H3Lib` structure and
  calls into `math.cos`/`math.sqrt` are fields of a `MathLib` structure: the
  embedded code is parametric in those collaborators, exactly as the source
  is parametric in the library it imports.  `h3` calls that the source wraps
  in `try/except` are `Option`-valued fields (a `none` models the caught
  exception).
* Python sets of hexagons are `Finset`s; Python dicts keyed by hexagons are
  association lists (insertion order preserved, as in CPython).
* The unbounded `while to_fill:` loop of `fill_buildup_and_water` is modelled
  with explicit fuel counting loop iterations: `none` means the loop has not
  finished within the given fuel, so termination of the Python loop is
  exactly `∃ fuel, … = some _`, and divergence is `∀ fuel, … = none`.
-/

namespace Hexwater

/-! ## GridRepair: `fill_buildup_and_water` -/

/-- The labels the repair pass removes (`["Built-up", "Permanent water bodies"]`
in the source). -/
def disallowedLabels : List String := ["Built-up", "Permanent water bodies"]

abbrev Grid := List (List String)

abbrev Pos := Nat × Nat

/-- `grid[i][j]`; out-of-range reads default to `""` (every in-range access of
the source is guarded, so the default is never observable there). -/
def getCell (g : Grid) (i j : Nat) : String := (g.getD i []).getD j ""

/-- `grid[i][j] = v`; out-of-range writes are no-ops (never reached by the
guarded source). -/
def setCell (g : Grid) (i j : Nat) (v : String) : Grid :=
  g.set i ((g.getD i []).set j v)

/-- The cell at `p` does not carry a disallowed label. -/
def allowedAt (g : Grid) (p : Pos) : Prop := getCell g p.1 p.2 ∉ disallowedLabels

instance (g : Grid) (p : Pos) : Decidable (allowedAt g p) := by
  unfold allowedAt; infer_instance

/-- The 3×3 block of offsets scanned by the comprehension
`for ni in range(i-1, i+2) for nj in range(j-1, j+2)` (centre included, in
enumeration order). -/
def blockOffsets : List (Int × Int) :=
  [(-1, -1), (-1, 0), (-1, 1), (0, -1), (0, 0), (0, 1), (1, -1), (1, 0), (1, 1)]

/-- The in-range positions of the 3×3 block around `(i, j)`, mirroring the
guard `0 <= ni < height and 0 <= nj < width`. -/
def nbrPositions (height width : Nat) (i j : Nat) : List Pos :=
  blockOffsets.filterMap (fun d =>
    let ni : Int := (i : Int) + d.1
    let nj : Int := (j : Int) + d.2
    if 0 ≤ ni ∧ ni < (height : Int) ∧ 0 ≤ nj ∧ nj < (width : Int) then
      some (ni.toNat, nj.toNat)
    else none)

/-- The list `neighbors` of the source: labels of in-range cells of the 3×3
block whose current label is not disallowed. -/
def neighborLabels (res : Grid) (height width : Nat) (i j : Nat) : List String :=
  (nbrPositions height width i j).filterMap (fun p =>
    let v := getCell res p.1 p.2
    if v ∈ disallowedLabels then none else some v)

/-- One comparison step of the `max` scan underlying `mostFrequent`. -/
def mfStep (l : List String) (acc : Option String) (x : String) : Option String :=
  match acc with
  | none => some x
  | some b => if l.count b < l.count x then some x else some b

/-- Model of `max(set(neighbors), key=neighbors.count)`: scan the distinct
labels (first-occurrence order standing in for CPython's unspecified set
order — the source's tie-break is likewise an unspecified deterministic
choice) keeping the first label of maximal multiplicity. -/
def mostFrequent (l : List String) : Option String :=
  l.dedup.foldl (mfStep l) none

/-- One iteration of the inner `for i, j in to_fill:` loop: fill the cell from
its neighbour majority when it has an allowed neighbour, recording it in
`filled`.  The state is the pair `(result, filled)` mutated by the source. -/
def passStep (height width : Nat) (st : Grid × List Pos) (p : Pos) : Grid × List Pos :=
  let nbrs := neighborLabels st.1 height width p.1 p.2
  match mostFrequent nbrs with
  | none => st
  | some v => (setCell st.1 p.1 p.2 v, st.2 ++ [p])

/-- One full pass of the `while` body over `to_fill` (the source iterates the
set `to_fill` in some fixed order; we carry that order as a list). -/
def fillPass (height width : Nat) (res : Grid) (toFill : List Pos) : Grid × List Pos :=
  toFill.foldl (passStep height width) (res, [])

/-- The `while to_fill:` loop with explicit fuel: `none` means the loop has
not terminated within `fuel` iterations. -/
def fillLoop (height width : Nat) : Nat → Grid → List Pos → Option Grid
  | _, res, [] => some res
  | 0, _, _ :: _ => none
  | fuel + 1, res, p :: ps =>
    let st := fillPass height width res (p :: ps)
    fillLoop height width fuel st.1 ((p :: ps).filter (fun q => q ∉ st.2))

/-- The initial `to_fill` set, enumerated in row-major order. -/
def initToFill (g : Grid) (height width : Nat) : List Pos :=
  (List.range height).flatMap (fun i =>
    (List.range width).filterMap (fun j =>
      if getCell g i j ∈ disallowedLabels then some (i, j) else none))

/-- `fill_buildup_and_water(grid)` with explicit fuel for the `while` loop.
`height, width = len(grid), len(grid[0])`; the copy `result = [row[:] ...]`
is implicit in the purely functional state. -/
def fill_buildup_and_water (fuel : Nat) (grid : Grid) : Option Grid :=
  fillLoop grid.length grid.headI.length fuel grid
    (initToFill grid grid.length grid.headI.length)

/-! ### Basic lemmas about the grid primitives -/

theorem getCell_setCell_ne (g : Grid) (i j i' j' : Nat) (v : String)
    (h : (i, j) ≠ (i', j')) : getCell (setCell g i j v) i' j' = getCell g i' j' := by
  rcases Nat.lt_or_ge i g.length with hlen | hlen
  · simp only [getCell, setCell, List.getD_eq_getElem?_getD]
    rcases eq_or_ne i i' with rfl | hi
    · have hj : j ≠ j' := fun hj => h (by rw [hj])
      rw [List.getElem?_set_self hlen, Option.getD_some, List.getElem?_set_ne hj]
    · rw [List.getElem?_set_ne hi]
  · unfold setCell
    rw [List.set_eq_of_length_le hlen]

theorem getCell_setCell_self (g : Grid) (i j : Nat) (v : String)
    (hi : i < g.length) (hj : j < (g.getD i []).length) :
    getCell (setCell g i j v) i j = v := by
  have hj' : j < (g[i]?.getD []).length := by
    simpa only [List.getD_eq_getElem?_getD] using hj
  simp only [getCell, setCell, List.getD_eq_getElem?_getD]
  rw [List.getElem?_set_self hi, Option.getD_some,
    List.getElem?_set_self hj', Option.getD_some]

theorem length_setCell (g : Grid) (i j : Nat) (v : String) :
    (setCell g i j v).length = g.length := by
  simp [setCell]

theorem map_length_setCell (g : Grid) (i j : Nat) (v : String) :
    (setCell g i j v).map List.length = g.map List.length := by
  unfold setCell
  induction g generalizing i with
  | nil => rfl
  | cons row rows ih =>
    cases i with
    | zero => simp
    | succ n =>
      have := ih n
      simp only [List.getD_cons_succ, List.set_cons_succ, List.map_cons] at this ⊢
      rw [this]

theorem mfStep_none (l : List String) (x : String) : mfStep l none x = some x := rfl

theorem mfStep_some (l : List String) (b x : String) :
    mfStep l (some b) x = if l.count b < l.count x then some x else some b := rfl

theorem mostFrequent_mem {l : List String} {x : String}
    (h : mostFrequent l = some x) : x ∈ l := by
  unfold mostFrequent at h
  suffices H : ∀ (ds : List String) (acc : Option String),
      (∀ b, acc = some b → b ∈ l) → (∀ y ∈ ds, y ∈ l) →
      ∀ z, ds.foldl (mfStep l) acc = some z → z ∈ l by
    exact H l.dedup none (fun b hb => by cases hb)
      (fun y hy => (List.mem_dedup).1 hy) x h
  intro ds
  induction ds with
  | nil => intro acc hacc _ z hz; exact hacc z hz
  | cons d ds ih =>
    intro acc hacc hds z hz
    rw [List.foldl_cons] at hz
    refine ih _ ?_ (fun y hy => hds y (List.mem_cons_of_mem _ hy)) z hz
    intro b hb
    have hd : d ∈ l := hds d (List.mem_cons_self d ds)
    cases acc with
    | none => rw [mfStep_none] at hb; cases hb; exact hd
    | some c =>
      rw [mfStep_some] at hb
      by_cases hc : l.count c < l.count d
      · rw [if_pos hc] at hb; cases hb; exact hd
      · rw [if_neg hc] at hb; cases hb; exact hacc _ rfl

theorem mostFrequent_isSome {l : List String} (h : l ≠ []) :
    ∃ v, mostFrequent l = some v := by
  unfold mostFrequent
  have hne : l.dedup ≠ [] := fun hd => h ((List.dedup_eq_nil l).1 hd)
  obtain ⟨d, ds, hds⟩ := List.exists_cons_of_ne_nil hne
  rw [hds]
  suffices H : ∀ (ds : List String) (b : String),
      ∃ v, ds.foldl (mfStep l) (some b) = some v by
    rw [List.foldl_cons, mfStep_none]; exact H ds d
  intro ds
  induction ds with
  | nil => intro b; exact ⟨b, rfl⟩
  | cons d ds ih =>
    intro b
    rw [List.foldl_cons, mfStep_some]
    by_cases hc : l.count b < l.count d
    · rw [if_pos hc]; exact ih d
    · rw [if_neg hc]; exact ih b

theorem empty_not_disallowed : "" ∉ disallowedLabels := by decide

theorem set_getD_self {β : Type _} (l : List β) (i : Nat) (d : β) :
    l.set i (l.getD i d) = l := by
  induction l generalizing i with
  | nil => rfl
  | cons x xs ih =>
    cases i with
    | zero => rfl
    | succ n => simp only [List.getD_cons_succ, List.set_cons_succ, ih]

theorem setCell_oob (g : Grid) (i j : Nat) (v : String)
    (h : g.length ≤ i ∨ (g.getD i []).length ≤ j) : setCell g i j v = g := by
  rcases h with h | h
  · unfold setCell; rw [List.set_eq_of_length_le h]
  · unfold setCell; rw [List.set_eq_of_length_le h, set_getD_self]

theorem neighborLabels_allowed {res : Grid} {height width i j : Nat} {x : String}
    (h : x ∈ neighborLabels res height width i j) : x ∉ disallowedLabels := by
  unfold neighborLabels at h
  obtain ⟨p, _, hp⟩ := List.mem_filterMap.1 h
  by_cases hd : getCell res p.1 p.2 ∈ disallowedLabels
  · rw [if_pos hd] at hp; cases hp
  · rw [if_neg hd] at hp; cases hp; exact hd

theorem neighborLabels_ne_nil {res : Grid} {height width i j : Nat} {q : Pos}
    (hq : q ∈ nbrPositions height width i j) (ha : allowedAt res q) :
    neighborLabels res height width i j ≠ [] := by
  have : getCell res q.1 q.2 ∈ neighborLabels res height width i j := by
    unfold neighborLabels
    refine List.mem_filterMap.2 ⟨q, hq, ?_⟩
    rw [if_neg ha]
  intro hnil
  rw [hnil] at this
  cases this

theorem passStep_of_none (height width : Nat) (st : Grid × List Pos) (p : Pos)
    (h : mostFrequent (neighborLabels st.1 height width p.1 p.2) = none) :
    passStep height width st p = st := by
  unfold passStep
  simp only [h]

theorem passStep_of_some (height width : Nat) (st : Grid × List Pos) (p : Pos)
    (v : String)
    (h : mostFrequent (neighborLabels st.1 height width p.1 p.2) = some v) :
    passStep height width st p = (setCell st.1 p.1 p.2 v, st.2 ++ [p]) := by
  unfold passStep
  simp only [h]

/-- A written label is allowed, whether the write lands in range or not. -/
theorem allowedAt_setCell (g : Grid) (i j : Nat) (v : String)
    (hv : v ∉ disallowedLabels) (p : Pos) (h : allowedAt g p) :
    allowedAt (setCell g i j v) p := by
  by_cases hoob : g.length ≤ i ∨ (g.getD i []).length ≤ j
  · rw [setCell_oob _ _ _ _ hoob]; exact h
  · push_neg at hoob
    by_cases hpq : (i, j) = (p.1, p.2)
    · unfold allowedAt
      rw [show p.1 = i from (congrArg Prod.fst hpq).symm,
        show p.2 = j from (congrArg Prod.snd hpq).symm,
        getCell_setCell_self _ _ _ _ hoob.1 hoob.2]
      exact hv
    · unfold allowedAt
      rw [getCell_setCell_ne _ _ _ _ _ _ hpq]
      exact h

/-- The freshly written cell itself ends up allowed (out-of-range writes read
back as the allowed default `""`). -/
theorem allowedAt_setCell_self (g : Grid) (i j : Nat) (v : String)
    (hv : v ∉ disallowedLabels) : allowedAt (setCell g i j v) (i, j) := by
  by_cases hoob : g.length ≤ i ∨ (g.getD i []).length ≤ j
  · rw [setCell_oob _ _ _ _ hoob]
    unfold allowedAt getCell
    rcases hoob with hoob | hoob
    · rw [List.getD_eq_default _ _ hoob]
      exact empty_not_disallowed
    · rw [List.getD_eq_default _ _ hoob]
      exact empty_not_disallowed
  · push_neg at hoob
    unfold allowedAt
    rw [getCell_setCell_self _ _ _ _ hoob.1 hoob.2]
    exact hv

/-- New labels written by `passStep` are always allowed, so allowedness of a
cell is preserved by the pass. -/
theorem passStep_allowed_mono (height width : Nat) (st : Grid × List Pos) (q : Pos)
    (p : Pos) (h : allowedAt st.1 p) : allowedAt (passStep height width st q).1 p := by
  cases hmf : mostFrequent (neighborLabels st.1 height width q.1 q.2) with
  | none => rw [passStep_of_none _ _ _ _ hmf]; exact h
  | some v =>
    rw [passStep_of_some _ _ _ _ _ hmf]
    exact allowedAt_setCell _ _ _ _ (neighborLabels_allowed (mostFrequent_mem hmf)) _ h

theorem fillFold_allowed_mono (height width : Nat) (l : List Pos)
    (st : Grid × List Pos) (p : Pos) (h : allowedAt st.1 p) :
    allowedAt (l.foldl (passStep height width) st).1 p := by
  induction l generalizing st with
  | nil => exact h
  | cons q l ih =>
    rw [List.foldl_cons]
    exact ih _ (passStep_allowed_mono _ _ _ _ _ h)

/-- The `filled` list only grows (by appends) along the pass, and new entries
come from the processed list. -/
theorem fillFold_filled_extend (height width : Nat) (l : List Pos)
    (st : Grid × List Pos) :
    ∃ suf, (l.foldl (passStep height width) st).2 = st.2 ++ suf ∧
      ∀ p ∈ suf, p ∈ l := by
  induction l generalizing st with
  | nil => exact ⟨[], by simp⟩
  | cons q l ih =>
    rw [List.foldl_cons]
    obtain ⟨suf, hsuf, hmem⟩ := ih (passStep height width st q)
    cases hmf : mostFrequent (neighborLabels st.1 height width q.1 q.2) with
    | none =>
      rw [passStep_of_none _ _ _ _ hmf] at hsuf ⊢
      exact ⟨suf, hsuf, fun p hp => List.mem_cons_of_mem _ (hmem p hp)⟩
    | some v =>
      rw [passStep_of_some _ _ _ _ _ hmf] at hsuf ⊢
      refine ⟨[q] ++ suf, ?_, ?_⟩
      · simpa [List.append_assoc] using hsuf
      · intro p hp
        rcases List.mem_append.1 hp with hp | hp
        · rw [List.mem_singleton.1 hp]; exact List.mem_cons_self _ _
        · exact List.mem_cons_of_mem _ (hmem p hp)

/-- Cells whose label changes during a pass end up in `filled`. -/
theorem fillFold_changed_filled (height width : Nat) (l : List Pos)
    (st : Grid × List Pos) (p : Pos)
    (h : getCell (l.foldl (passStep height width) st).1 p.1 p.2 ≠ getCell st.1 p.1 p.2) :
    p ∈ (l.foldl (passStep height width) st).2 := by
  induction l generalizing st with
  | nil => exact absurd rfl h
  | cons q l ih =>
    rw [List.foldl_cons] at h ⊢
    by_cases hstep : getCell (passStep height width st q).1 p.1 p.2 = getCell st.1 p.1 p.2
    · exact ih _ (fun heq => h (heq.trans hstep))
    · -- the step itself changed the cell, so it wrote at `p`, hence `q = p`
      have hq : (q.1, q.2) = (p.1, p.2) := by
        by_contra hne
        apply hstep
        cases hmf : mostFrequent (neighborLabels st.1 height width q.1 q.2) with
        | none => rw [passStep_of_none _ _ _ _ hmf]
        | some v =>
          rw [passStep_of_some _ _ _ _ _ hmf]
          exact getCell_setCell_ne _ _ _ _ _ _ hne
      have hq' : q = p := Prod.ext (congrArg Prod.fst hq) (congrArg Prod.snd hq)
      have hqin : q ∈ (passStep height width st q).2 := by
        cases hmf : mostFrequent (neighborLabels st.1 height width q.1 q.2) with
        | none =>
          exact absurd (by rw [passStep_of_none _ _ _ _ hmf]) hstep
        | some v =>
          rw [passStep_of_some _ _ _ _ _ hmf]
          simp
      obtain ⟨suf, hsuf, _⟩ :=
        fillFold_filled_extend height width l (passStep height width st q)
      rw [hsuf, ← hq']
      exact List.mem_append_left _ hqin

/-- Every cell recorded in `filled` is allowed at the end of the pass. -/
theorem fillFold_filled_allowed (height width : Nat) (l : List Pos)
    (st : Grid × List Pos) (hst : ∀ p ∈ st.2, allowedAt st.1 p) :
    ∀ p ∈ (l.foldl (passStep height width) st).2,
      allowedAt (l.foldl (passStep height width) st).1 p := by
  induction l generalizing st with
  | nil => exact hst
  | cons q l ih =>
    rw [List.foldl_cons]
    apply ih
    intro p hp
    cases hmf : mostFrequent (neighborLabels st.1 height width q.1 q.2) with
    | none =>
      rw [passStep_of_none _ _ _ _ hmf] at hp ⊢
      exact hst p hp
    | some v =>
      rw [passStep_of_some _ _ _ _ _ hmf] at hp ⊢
      have hv : v ∉ disallowedLabels :=
        neighborLabels_allowed (mostFrequent_mem hmf)
      rcases List.mem_append.1 hp with hp | hp
      · exact allowedAt_setCell _ _ _ _ hv _ (hst p hp)
      · have hpq : p = q := List.mem_singleton.1 hp
        subst hpq
        exact allowedAt_setCell_self _ _ _ _ hv

/-! ### Reachability of an allowed cell through 8-neighbours -/

/-- The eight neighbour offsets (centre excluded) — the adjacency named by the
specification for its convergence condition. -/
def adj8Offsets : List (Int × Int) :=
  [(-1, -1), (-1, 0), (-1, 1), (0, -1), (0, 1), (1, -1), (1, 0), (1, 1)]

/-- In-range 8-neighbours of `(i, j)`. -/
def adj8 (height width : Nat) (i j : Nat) : List Pos :=
  adj8Offsets.filterMap (fun d =>
    let ni : Int := (i : Int) + d.1
    let nj : Int := (j : Int) + d.2
    if 0 ≤ ni ∧ ni < (height : Int) ∧ 0 ≤ nj ∧ nj < (width : Int) then
      some (ni.toNat, nj.toNat)
    else none)

theorem adj8_subset_nbrPositions {height width i j : Nat} {q : Pos}
    (h : q ∈ adj8 height width i j) : q ∈ nbrPositions height width i j := by
  unfold adj8 at h
  unfold nbrPositions
  obtain ⟨d, hd, hq⟩ := List.mem_filterMap.1 h
  refine List.mem_filterMap.2 ⟨d, ?_, hq⟩
  unfold adj8Offsets at hd
  simp only [List.mem_cons, List.not_mem_nil, or_false] at hd
  rcases hd with rfl | rfl | rfl | rfl | rfl | rfl | rfl | rfl <;> decide

theorem adj8_in_range {height width i j : Nat} {q : Pos}
    (h : q ∈ adj8 height width i j) : q.1 < height ∧ q.2 < width := by
  unfold adj8 at h
  obtain ⟨d, _, hq⟩ := List.mem_filterMap.1 h
  by_cases hc : 0 ≤ (i : Int) + d.1 ∧ (i : Int) + d.1 < (height : Int) ∧
      0 ≤ (j : Int) + d.2 ∧ (j : Int) + d.2 < (width : Int)
  · rw [if_pos hc] at hq
    cases hq
    constructor <;> [skip; skip] <;> omega
  · rw [if_neg hc] at hq
    cases hq

/-- The cell `p` can reach a cell with an allowed label through a chain of
in-range 8-neighbour steps. -/
inductive ReachesAllowed (g : Grid) (height width : Nat) : Pos → Prop
  | here (p : Pos) : allowedAt g p → ReachesAllowed g height width p
  | step (p q : Pos) : q ∈ adj8 height width p.1 p.2 →
      ReachesAllowed g height width q → ReachesAllowed g height width p

theorem ReachesAllowed.mono {g g' : Grid} {height width : Nat}
    (hmono : ∀ p : Pos, allowedAt g p → allowedAt g' p) {p : Pos}
    (h : ReachesAllowed g height width p) : ReachesAllowed g' height width p := by
  induction h with
  | here p ha => exact .here p (hmono p ha)
  | step p q hadj _ ih => exact .step p q hadj ih

/-- From any pending (disallowed) cell that reaches an allowed cell, some
pending cell has an allowed cell directly in its 3×3 block. -/
theorem frontier_of_reaches (g : Grid) (height width : Nat) (toFill : List Pos)
    (hinv : ∀ p : Pos, p ∈ toFill ↔ p.1 < height ∧ p.2 < width ∧ ¬ allowedAt g p)
    {p : Pos} (hp : p ∈ toFill) (hr : ReachesAllowed g height width p) :
    ∃ r ∈ toFill, ∃ q ∈ nbrPositions height width r.1 r.2, allowedAt g q := by
  induction hr with
  | here p' ha => exact absurd ha ((hinv p').1 hp).2.2
  | step p' q hadj hq ih =>
    by_cases ha : allowedAt g q
    · exact ⟨p', hp, q, adj8_subset_nbrPositions hadj, ha⟩
    · have hqr := adj8_in_range hadj
      exact ih ((hinv q).2 ⟨hqr.1, hqr.2, ha⟩)

/-! ### Progress of one pass -/

theorem fillFold_progress (height width : Nat) (l : List Pos)
    (st : Grid × List Pos)
    (hex : ∃ p ∈ l, ∃ q ∈ nbrPositions height width p.1 p.2, allowedAt st.1 q) :
    (l.foldl (passStep height width) st).2 ≠ [] := by
  induction l generalizing st with
  | nil => obtain ⟨p, hp, _⟩ := hex; cases hp
  | cons r l ih =>
    rw [List.foldl_cons]
    obtain ⟨p, hp, q, hq, ha⟩ := hex
    rcases List.mem_cons.1 hp with rfl | hp
    · -- the head itself has an allowed neighbour: it is filled
      have hnb : neighborLabels st.1 height width p.1 p.2 ≠ [] :=
        neighborLabels_ne_nil hq ha
      obtain ⟨v, hv⟩ := mostFrequent_isSome hnb
      rw [passStep_of_some _ _ _ _ _ hv]
      obtain ⟨suf, hsuf, _⟩ := fillFold_filled_extend height width l
        (setCell st.1 p.1 p.2 v, st.2 ++ [p])
      rw [hsuf]
      simp
    · exact ih _ ⟨p, hp, q, hq, passStep_allowed_mono _ _ _ _ _ ha⟩

theorem length_filter_lt {α : Type _} (l : List α) (f : α → Bool) (x : α)
    (hx : x ∈ l) (hfx : f x = false) : (l.filter f).length < l.length := by
  induction l with
  | nil => cases hx
  | cons a l ih =>
    rcases List.mem_cons.1 hx with rfl | hx
    · rw [List.filter_cons, hfx]
      exact Nat.lt_succ_of_le (List.length_filter_le f l)
    · rw [List.filter_cons]
      cases f a with
      | true => simpa using Nat.succ_lt_succ (ih hx)
      | false => exact Nat.lt_succ_of_lt (ih hx)

/-! ### Shape preservation by a pass -/

theorem fillFold_length (height width : Nat) (l : List Pos) (st : Grid × List Pos) :
    (l.foldl (passStep height width) st).1.length = st.1.length := by
  induction l generalizing st with
  | nil => rfl
  | cons q l ih =>
    rw [List.foldl_cons]
    rw [ih]
    cases hmf : mostFrequent (neighborLabels st.1 height width q.1 q.2) with
    | none => rw [passStep_of_none _ _ _ _ hmf]
    | some v => rw [passStep_of_some _ _ _ _ _ hmf]; exact length_setCell _ _ _ _

theorem fillFold_map_length (height width : Nat) (l : List Pos) (st : Grid × List Pos) :
    (l.foldl (passStep height width) st).1.map List.length = st.1.map List.length := by
  induction l generalizing st with
  | nil => rfl
  | cons q l ih =>
    rw [List.foldl_cons, ih]
    cases hmf : mostFrequent (neighborLabels st.1 height width q.1 q.2) with
    | none => rw [passStep_of_none _ _ _ _ hmf]
    | some v => rw [passStep_of_some _ _ _ _ _ hmf]; exact map_length_setCell _ _ _ _

/-! ### The while loop -/

theorem fillLoop_nil (height width fuel : Nat) (res : Grid) :
    fillLoop height width fuel res [] = some res := by
  cases fuel <;> rfl

theorem fillLoop_zero (height width : Nat) (res : Grid) (p : Pos) (ps : List Pos) :
    fillLoop height width 0 res (p :: ps) = none := rfl

theorem fillLoop_succ (height width fuel : Nat) (res : Grid) (p : Pos) (ps : List Pos) :
    fillLoop height width (fuel + 1) res (p :: ps) =
      fillLoop height width fuel (fillPass height width res (p :: ps)).1
        ((p :: ps).filter
          (fun q => q ∉ (fillPass height width res (p :: ps)).2)) := rfl

/-- The membership invariant carried by the loop: `to_fill` is exactly the set
of in-range cells currently holding a disallowed label. -/
def FillInv (res : Grid) (height width : Nat) (toFill : List Pos) : Prop :=
  ∀ p : Pos, p ∈ toFill ↔ p.1 < height ∧ p.2 < width ∧ ¬ allowedAt res p

/-- One iteration of the while body preserves the invariant, preserves
reachability, and strictly shrinks `to_fill`. -/
theorem fillIter (height width : Nat) (res : Grid) (toFill : List Pos)
    (hinv : FillInv res height width toFill)
    (hreach : ∀ p ∈ toFill, ReachesAllowed res height width p)
    (hne : toFill ≠ []) :
    FillInv (fillPass height width res toFill).1 height width
      (toFill.filter (fun q => q ∉ (fillPass height width res toFill).2)) ∧
    (∀ p ∈ toFill.filter (fun q => q ∉ (fillPass height width res toFill).2),
      ReachesAllowed (fillPass height width res toFill).1 height width p) ∧
    (toFill.filter (fun q => q ∉ (fillPass height width res toFill).2)).length
      < toFill.length := by
  set st := fillPass height width res toFill with hst
  have hmono : ∀ p : Pos, allowedAt res p → allowedAt st.1 p := fun p h =>
    fillFold_allowed_mono height width toFill (res, []) p h
  have hfilled_allowed : ∀ p ∈ st.2, allowedAt st.1 p :=
    fillFold_filled_allowed height width toFill (res, []) (fun p hp => by cases hp)
  have hchanged : ∀ p : Pos, getCell st.1 p.1 p.2 ≠ getCell res p.1 p.2 → p ∈ st.2 :=
    fun p h => fillFold_changed_filled height width toFill (res, []) p h
  refine ⟨?_, ?_, ?_⟩
  · intro p
    rw [List.mem_filter]
    constructor
    · rintro ⟨hp, hnotf⟩
      obtain ⟨h1, h2, h3⟩ := (hinv p).1 hp
      refine ⟨h1, h2, fun hall => ?_⟩
      have hnotf' : p ∉ st.2 := by simpa using hnotf
      have : getCell st.1 p.1 p.2 = getCell res p.1 p.2 := by
        by_contra hch
        exact hnotf' (hchanged p hch)
      exact h3 (by unfold allowedAt at hall ⊢; rw [← this]; exact hall)
    · rintro ⟨h1, h2, h3⟩
      have hp : p ∈ toFill := by
        rw [hinv p]
        refine ⟨h1, h2, fun hall => h3 (hmono p hall)⟩
      refine ⟨hp, ?_⟩
      simp only [decide_not, Bool.not_eq_eq_eq_not, Bool.not_true, decide_eq_false_iff_not]
      intro hin
      exact h3 (hfilled_allowed p hin)
  · intro p hp
    have hp' : p ∈ toFill := (List.mem_filter.1 hp).1
    exact (hreach p hp').mono hmono
  · obtain ⟨r, hr⟩ := List.exists_mem_of_ne_nil toFill hne
    obtain ⟨r0, hr0, q, hq, ha⟩ :=
      frontier_of_reaches res height width toFill hinv hr (hreach r hr)
    have hfne : st.2 ≠ [] :=
      fillFold_progress height width toFill (res, []) ⟨r0, hr0, q, hq, ha⟩
    obtain ⟨f0, hf0⟩ := List.exists_mem_of_ne_nil st.2 hfne
    have hf0' : f0 ∈ toFill := by
      obtain ⟨suf, hsuf, hsub⟩ := fillFold_filled_extend height width toFill (res, [])
      have hsuf2 : st.2 = suf := by
        have h2 : (List.foldl (passStep height width) (res, []) toFill).2 = suf := by
          simpa using hsuf
        exact h2
      rw [hsuf2] at hf0
      exact hsub f0 hf0
    refine length_filter_lt _ _ f0 hf0' ?_
    simp [hf0]

/-- Cells outside `to_fill` are never rewritten by the loop, and the shape of
the grid is preserved. -/
theorem fillLoop_frame (height width : Nat) :
    ∀ (fuel : Nat) (res : Grid) (toFill : List Pos) (out : Grid),
    fillLoop height width fuel res toFill = some out →
    out.length = res.length ∧ out.map List.length = res.map List.length ∧
    ∀ p : Pos, p ∉ toFill → getCell out p.1 p.2 = getCell res p.1 p.2 := by
  intro fuel
  induction fuel with
  | zero =>
    intro res toFill out h
    cases toFill with
    | nil => rw [fillLoop_nil] at h; cases h; exact ⟨rfl, rfl, fun _ _ => rfl⟩
    | cons p ps => rw [fillLoop_zero] at h; cases h
  | succ fuel ih =>
    intro res toFill out h
    cases toFill with
    | nil => rw [fillLoop_nil] at h; cases h; exact ⟨rfl, rfl, fun _ _ => rfl⟩
    | cons p ps =>
      rw [fillLoop_succ] at h
      set st := fillPass height width res (p :: ps) with hst
      obtain ⟨hlen, hmap, hframe⟩ := ih st.1 _ out h
      have hlen' : st.1.length = res.length :=
        fillFold_length height width (p :: ps) (res, [])
      have hmap' : st.1.map List.length = res.map List.length :=
        fillFold_map_length height width (p :: ps) (res, [])
      refine ⟨hlen.trans hlen', hmap.trans hmap', ?_⟩
      intro q hq
      have hq1 : q ∉ (p :: ps).filter (fun r => r ∉ st.2) := fun hmem =>
        hq (List.mem_filter.1 hmem).1
      rw [hframe q hq1]
      by_contra hch
      have hmem : q ∈ st.2 := fillFold_changed_filled height width (p :: ps) (res, []) q
        (fun heq => hch heq)
      -- a filled cell is a member of the processed list, contradicting `hq`
      obtain ⟨suf, hsuf, hsub⟩ := fillFold_filled_extend height width (p :: ps) (res, [])
      have hsuf2 : st.2 = suf := by
        have h2 : (List.foldl (passStep height width) (res, []) (p :: ps)).2 = suf := by
          simpa using hsuf
        exact h2
      rw [hsuf2] at hmem
      exact hq (hsub q hmem)

/-- With the invariant and reachability, fuel `toFill.length` suffices and the
returned grid has no in-range disallowed cells. -/
theorem fillLoop_terminates (height width : Nat) :
    ∀ (n : Nat) (res : Grid) (toFill : List Pos), toFill.length ≤ n →
    FillInv res height width toFill →
    (∀ p ∈ toFill, ReachesAllowed res height width p) →
    ∃ out, fillLoop height width n res toFill = some out ∧
      ∀ p : Pos, p.1 < height → p.2 < width → allowedAt out p := by
  intro n
  induction n with
  | zero =>
    intro res toFill hlen hinv hreach
    have : toFill = [] := List.length_eq_zero.1 (Nat.le_zero.1 hlen)
    subst this
    refine ⟨res, fillLoop_nil _ _ _ _, ?_⟩
    intro p h1 h2
    by_contra hall
    exact absurd ((hinv p).2 ⟨h1, h2, hall⟩) (List.not_mem_nil p)
  | succ n ih =>
    intro res toFill hlen hinv hreach
    cases htf : toFill with
    | nil =>
      refine ⟨res, fillLoop_nil _ _ _ _, ?_⟩
      intro p h1 h2
      by_contra hall
      rw [htf] at hinv
      exact absurd ((hinv p).2 ⟨h1, h2, hall⟩) (List.not_mem_nil p)
    | cons p ps =>
      subst htf
      obtain ⟨hinv', hreach', hdec⟩ :=
        fillIter height width res (p :: ps) hinv hreach (by simp)
      rw [fillLoop_succ]
      exact ih _ _ (by omega) hinv' hreach'

/-- `initToFill` satisfies the membership invariant. -/
theorem initToFill_inv (g : Grid) (height width : Nat) :
    FillInv g height width (initToFill g height width) := by
  intro p
  unfold initToFill
  rw [List.mem_flatMap]
  constructor
  · rintro ⟨i, hi, hp⟩
    obtain ⟨j, hj, hpj⟩ := List.mem_filterMap.1 hp
    by_cases hd : getCell g i j ∈ disallowedLabels
    · rw [if_pos hd] at hpj
      cases hpj
      exact ⟨List.mem_range.1 hi, List.mem_range.1 hj, fun h => h hd⟩
    · rw [if_neg hd] at hpj; cases hpj
  · rintro ⟨h1, h2, h3⟩
    refine ⟨p.1, List.mem_range.2 h1, List.mem_filterMap.2 ⟨p.2, List.mem_range.2 h2, ?_⟩⟩
    have hd : getCell g p.1 p.2 ∈ disallowedLabels := by
      by_contra hnd
      exact h3 hnd
    rw [if_pos hd]

/-! ### Divergence on all-disallowed grids -/

theorem nbrPositions_in_range {height width i j : Nat} {q : Pos}
    (h : q ∈ nbrPositions height width i j) : q.1 < height ∧ q.2 < width := by
  unfold nbrPositions at h
  obtain ⟨d, _, hq⟩ := List.mem_filterMap.1 h
  by_cases hc : 0 ≤ (i : Int) + d.1 ∧ (i : Int) + d.1 < (height : Int) ∧
      0 ≤ (j : Int) + d.2 ∧ (j : Int) + d.2 < (width : Int)
  · rw [if_pos hc] at hq
    cases hq
    constructor <;> [skip; skip] <;> omega
  · rw [if_neg hc] at hq
    cases hq

theorem neighborLabels_eq_nil (res : Grid) (height width i j : Nat)
    (hall : ∀ a b : Nat, a < height → b < width → getCell res a b ∈ disallowedLabels) :
    neighborLabels res height width i j = [] := by
  unfold neighborLabels
  rw [List.filterMap_eq_nil_iff]
  intro p hp
  have hr := nbrPositions_in_range hp
  simp only
  rw [if_pos (hall p.1 p.2 hr.1 hr.2)]

theorem fillFold_stuck (height width : Nat) (l : List Pos) (res : Grid)
    (hall : ∀ a b : Nat, a < height → b < width → getCell res a b ∈ disallowedLabels) :
    l.foldl (passStep height width) (res, []) = (res, []) := by
  induction l with
  | nil => rfl
  | cons q l ih =>
    rw [List.foldl_cons, passStep_of_none]
    · exact ih
    · show mostFrequent (neighborLabels res height width q.1 q.2) = none
      rw [neighborLabels_eq_nil res height width q.1 q.2 hall]
      rfl

/-- If every in-range cell is disallowed, no pass makes progress, so the
`while` loop never terminates, whatever the fuel. -/
theorem fillLoop_stuck (height width : Nat) (res : Grid) (p : Pos) (ps : List Pos)
    (hall : ∀ a b : Nat, a < height → b < width → getCell res a b ∈ disallowedLabels) :
    ∀ fuel, fillLoop height width fuel res (p :: ps) = none := by
  intro fuel
  induction fuel with
  | zero => rfl
  | succ n ih =>
    rw [fillLoop_succ]
    have hstuck : fillPass height width res (p :: ps) = (res, []) :=
      fillFold_stuck height width (p :: ps) res hall
    rw [hstuck]
    have hfilter : (p :: ps).filter (fun q => q ∉ ((res, ([] : List Pos))).2) = p :: ps :=
      List.filter_eq_self.2 (by intro a _; simp)
    rw [hfilter]
    exact ih

/-! ## The claims about GridRepair -/

/-- **C1**: the specification says a grid entirely composed of disallowed
labels must be detected and reported as a `DegenerateGridError`.  The code has
no such detection: on the all-disallowed 1×1 grid `[["Built-up"]]` the
`while to_fill:` loop of `fill_buildup_and_water` makes no progress in any
pass and therefore never terminates — it neither raises nor returns, for any
number of loop iterations.  (Divergence of the Python loop is exactly
`∀ fuel, … = none` in the fuel model.) -/
theorem c1_grid_repair_all_disallowed_diverges :
    ¬ ∃ fuel out, fill_buildup_and_water fuel [["Built-up"]] = some out := by
  rintro ⟨fuel, out, h⟩
  have hall : ∀ a b : Nat, a < 1 → b < 1 →
      getCell [["Built-up"]] a b ∈ disallowedLabels := by
    intro a b ha hb
    have ha' : a = 0 := by omega
    have hb' : b = 0 := by omega
    subst ha' hb'
    decide
  have hdiv : fill_buildup_and_water fuel [["Built-up"]] = none := by
    show fillLoop 1 1 fuel [["Built-up"]] (initToFill [["Built-up"]] 1 1) = none
    have hinit : initToFill [["Built-up"]] 1 1 = [(0, 0)] := by decide
    rw [hinit]
    exact fillLoop_stuck 1 1 [["Built-up"]] (0, 0) [] hall fuel
  rw [hdiv] at h
  cases h

/-- Row lengths agree between two grids with equal length profiles. -/
theorem row_len_eq {g g' : Grid} (h : g'.map List.length = g.map List.length)
    (i : Nat) : (g'.getD i []).length = (g.getD i []).length := by
  rw [List.getD_eq_getElem?_getD, List.getD_eq_getElem?_getD]
  have hmap := congrArg (fun l => l[i]?) h
  simp only [List.getElem?_map] at hmap
  cases hg' : g'[i]? with
  | none =>
    rw [hg'] at hmap
    cases hg : g[i]? with
    | none => rfl
    | some row => rw [hg] at hmap; cases hmap
  | some row' =>
    rw [hg'] at hmap
    cases hg : g[i]? with
    | none => rw [hg] at hmap; cases hmap
    | some row =>
      rw [hg] at hmap
      have hlen : row'.length = row.length := by
        have h2 : some row'.length = some row.length := hmap
        exact Option.some.inj h2
      simp [hlen]

/-- **C3**: on every rectangular grid in which each disallowed cell reaches an
allowed cell through a chain of in-range 8-neighbour steps,
`fill_buildup_and_water` terminates (some fuel suffices for its `while` loop)
and the returned grid contains no disallowed label. -/
theorem c3_grid_repair_reachable_terminates (grid : Grid)
    (hrect : ∀ row ∈ grid, row.length = grid.headI.length)
    (hreach : ∀ p : Pos, p.1 < grid.length → p.2 < grid.headI.length →
      getCell grid p.1 p.2 ∈ disallowedLabels →
      ReachesAllowed grid grid.length grid.headI.length p) :
    ∃ fuel out, fill_buildup_and_water fuel grid = some out ∧
      ∀ p : Pos, p.1 < out.length → p.2 < (out.getD p.1 []).length →
        getCell out p.1 p.2 ∉ disallowedLabels := by
  have hinv : FillInv grid grid.length grid.headI.length
      (initToFill grid grid.length grid.headI.length) :=
    initToFill_inv grid grid.length grid.headI.length
  have hreach' : ∀ p ∈ initToFill grid grid.length grid.headI.length,
      ReachesAllowed grid grid.length grid.headI.length p := by
    intro p hp
    obtain ⟨h1, h2, h3⟩ := (hinv p).1 hp
    exact hreach p h1 h2 (of_not_not (fun hnd => h3 hnd))
  obtain ⟨out, hout, hall⟩ :=
    fillLoop_terminates grid.length grid.headI.length
      (initToFill grid grid.length grid.headI.length).length grid
      (initToFill grid grid.length grid.headI.length) le_rfl hinv hreach'
  obtain ⟨hlen, hmap, _⟩ :=
    fillLoop_frame grid.length grid.headI.length
      (initToFill grid grid.length grid.headI.length).length grid
      (initToFill grid grid.length grid.headI.length) out hout
  refine ⟨(initToFill grid grid.length grid.headI.length).length, out, hout, ?_⟩
  intro p hp1 hp2
  have hp1' : p.1 < grid.length := by rw [← hlen]; exact hp1
  have hp2' : p.2 < grid.headI.length := by
    have hrow : (out.getD p.1 []).length = (grid.getD p.1 []).length := row_len_eq hmap p.1
    have hmem : grid.getD p.1 [] ∈ grid := by
      rw [List.getD_eq_getElem?_getD, List.getElem?_eq_getElem hp1']
      exact List.getElem_mem hp1'
    have := hrect _ hmem
    rw [hrow, this] at hp2
    exact hp2
  exact hall p hp1' hp2'

/-- Witness for C3 at the 1×2 grid `[["Built-up", "Grassland"]]`: the single
disallowed cell `(0,0)` reaches the allowed cell `(0,1)` in one step. -/
theorem c3_witness :
    ∃ fuel out, fill_buildup_and_water fuel [["Built-up", "Grassland"]] = some out ∧
      ∀ p : Pos, p.1 < out.length → p.2 < (out.getD p.1 []).length →
        getCell out p.1 p.2 ∉ disallowedLabels := by
  apply c3_grid_repair_reachable_terminates
  · decide
  · intro p h1 h2 hd
    have hl1 : p.1 < 1 := by simpa using h1
    have hl2 : p.2 < 2 := by simpa using h2
    have h1' : p.1 = 0 := by omega
    have hp2 : p.2 = 0 ∨ p.2 = 1 := by omega
    rcases hp2 with h2' | h2'
    · have hp : p = (0, 0) := Prod.ext h1' h2'
      rw [hp]
      exact .step (0, 0) (0, 1) (by decide) (.here (0, 1) (by decide))
    · exfalso
      have hcell : getCell [["Built-up", "Grassland"]] p.1 p.2 = "Grassland" := by
        rw [h1', h2']; rfl
      rw [hcell] at hd
      exact absurd hd (by decide)

/-- **C10** (counterexample): the claim promises a returned grid for *every*
input grid, but on the all-disallowed grid `[["Permanent water bodies"]]` the
function never returns at all (the `while` loop diverges). -/
theorem c10_counterexample_diverges :
    ¬ ∃ fuel out, fill_buildup_and_water fuel [["Permanent water bodies"]] = some out := by
  rintro ⟨fuel, out, h⟩
  have hall : ∀ a b : Nat, a < 1 → b < 1 →
      getCell [["Permanent water bodies"]] a b ∈ disallowedLabels := by
    intro a b ha hb
    have ha' : a = 0 := by omega
    have hb' : b = 0 := by omega
    subst ha' hb'
    decide
  have hdiv : fill_buildup_and_water fuel [["Permanent water bodies"]] = none := by
    show fillLoop 1 1 fuel [["Permanent water bodies"]]
      (initToFill [["Permanent water bodies"]] 1 1) = none
    have hinit : initToFill [["Permanent water bodies"]] 1 1 = [(0, 0)] := by decide
    rw [hinit]
    exact fillLoop_stuck 1 1 [["Permanent water bodies"]] (0, 0) [] hall fuel
  rw [hdiv] at h
  cases h

/-- **C10** (amended): whenever `fill_buildup_and_water` terminates, the
returned grid has the same dimensions as the input (same number of rows with
the same lengths) and every cell whose original label was not disallowed
keeps its original label.  (The source copies the rows — `result = [row[:]
for row in grid]` — so the input object itself is never mutated; in this
purely functional embedding that non-mutation is definitional.) -/
theorem c10_grid_repair_frame (grid : Grid) (fuel : Nat) (out : Grid)
    (h : fill_buildup_and_water fuel grid = some out) :
    out.length = grid.length ∧ out.map List.length = grid.map List.length ∧
    ∀ p : Pos, getCell grid p.1 p.2 ∉ disallowedLabels →
      getCell out p.1 p.2 = getCell grid p.1 p.2 := by
  obtain ⟨hlen, hmap, hframe⟩ :=
    fillLoop_frame grid.length grid.headI.length fuel grid
      (initToFill grid grid.length grid.headI.length) out h
  refine ⟨hlen, hmap, fun p hp => hframe p ?_⟩
  intro hmem
  exact ((initToFill_inv grid grid.length grid.headI.length p).1 hmem).2.2 hp

/-- Witness for the amended C10: on `[["Built-up", "Grassland"]]` one pass
fills cell `(0,0)` with `"Grassland"`, and the originally allowed cell `(0,1)`
is untouched. -/
theorem c10_witness :
    getCell [["Grassland", "Grassland"]] 0 1 = getCell [["Built-up", "Grassland"]] 0 1 :=
  (c10_grid_repair_frame [["Built-up", "Grassland"]] 1 [["Grassland", "Grassland"]]
    (by decide)).2.2 (0, 1) (by decide)

/-! ## Numeric primitives shared by the tessellation and snapping code -/

/-- Python `int(x)`: truncation toward zero. -/
def pyInt (q : ℚ) : ℤ := if q < 0 then ⌈q⌉ else ⌊q⌋

/-- Python `min(xs)` over a nonempty list, as a left fold. -/
def pyMin (l : List ℚ) : ℚ := l.foldl min l.headI

/-- Python `max(xs)` over a nonempty list, as a left fold. -/
def pyMax (l : List ℚ) : ℚ := l.foldl max l.headI

theorem pyInt_of_nonneg {q : ℚ} (h : 0 ≤ q) : pyInt q = ⌊q⌋ := by
  unfold pyInt
  rw [if_neg (not_lt.2 h)]

theorem foldl_min_le_init (m : List ℚ) (a : ℚ) : m.foldl min a ≤ a := by
  induction m generalizing a with
  | nil => exact le_refl _
  | cons z m ihm => exact le_trans (ihm (min a z)) (min_le_left _ _)

theorem le_foldl_max_init (m : List ℚ) (a : ℚ) : a ≤ m.foldl max a := by
  induction m generalizing a with
  | nil => exact le_refl _
  | cons z m ihm => exact le_trans (le_max_left _ _) (ihm (max a z))

theorem pyMin_le {l : List ℚ} {x : ℚ} (hx : x ∈ l) : pyMin l ≤ x := by
  unfold pyMin
  suffices H : ∀ (a : ℚ) (m : List ℚ), x ∈ m → m.foldl min a ≤ x by
    exact H l.headI l hx
  intro a m
  induction m generalizing a with
  | nil => intro h; cases h
  | cons y m ih =>
    intro h
    rcases List.mem_cons.1 h with rfl | h
    · exact le_trans (foldl_min_le_init m (min a x)) (min_le_right _ _)
    · exact ih (min a y) h

theorem le_pyMax {l : List ℚ} {x : ℚ} (hx : x ∈ l) : x ≤ pyMax l := by
  unfold pyMax
  suffices H : ∀ (a : ℚ) (m : List ℚ), x ∈ m → x ≤ m.foldl max a by
    exact H l.headI l hx
  intro a m
  induction m generalizing a with
  | nil => intro h; cases h
  | cons y m ih =>
    intro h
    rcases List.mem_cons.1 h with rfl | h
    · exact le_trans (le_max_right _ _) (le_foldl_max_init m (max a x))
    · exact ih (max a y) h

/-! ## External collaborators: the `h3` library and `math` -/

/-- The operations the source calls on the external `h3` library, abstracted
over the type `α` of cell identifiers.  `grid_distance` and `grid_path_cells`
are `Option`-valued because the source wraps them in `try/except`: `none`
models the caught exception. -/
structure H3Lib (α : Type) where
  latlng_to_cell : ℚ → ℚ → Nat → α
  cell_to_latlng : α → ℚ × ℚ
  average_hexagon_edge_length : Nat → ℚ
  grid_disk : α → Int → List α
  get_resolution : α → Nat
  grid_distance : α → α → Option Int
  grid_path_cells : α → α → Option (List α)

/-- The two `math` functions the snapping code uses.  `cosdeg x` models
`math.cos(math.radians(x))` and `sqrt` models `math.sqrt`; the claims proved
below do not depend on their values. -/
structure MathLib where
  cosdeg : ℚ → ℚ
  sqrt : ℚ → ℚ

/-! ## Tessellator: `map_to_hexagons` -/

/-- The breakpoint table of `map_to_hexagons`:
`50 → 10, 20 → 11, 7 → 12, 2 → 13, else 14`. -/
def selectResolution (hex_size_m : ℚ) : Nat :=
  if 50 ≤ hex_size_m then 10
  else if 20 ≤ hex_size_m then 11
  else if 7 ≤ hex_size_m then 12
  else if 2 ≤ hex_size_m then 13
  else 14

/-- `rings = int(radius_m / (avg_hex_edge * 1.5)) + 1` with
`radius_m = max(area_size_m) / 2`. -/
def computeRings (avg_hex_edge : ℚ) (area_w area_h : ℚ) : Int :=
  pyInt ((max area_w area_h / 2) / (avg_hex_edge * (3 / 2))) + 1

/-- `max(0, min(n - 1, x))`: the clamp applied to a row or column index. -/
def clampIdx (n : Nat) (x : Int) : Int := max 0 (min ((n : Int) - 1) x)

/-- `row = int((1 - (h_lat - lat_min) / (lat_max - lat_min)) * height)`. -/
def hexRow (lat_min lat_max : ℚ) (height : Nat) (h_lat : ℚ) : Int :=
  pyInt ((1 - (h_lat - lat_min) / (lat_max - lat_min)) * height)

/-- `col = int((h_lon - lon_min) / (lon_max - lon_min) * width)`. -/
def hexCol (lon_min lon_max : ℚ) (width : Nat) (h_lon : ℚ) : Int :=
  pyInt ((h_lon - lon_min) / (lon_max - lon_min) * width)

/-- The label assigned to a tile from its centre `(lat, lon)`: the clamped
grid projection of the loop body `hex_biomes[hex_id] = grid[row][col]`. -/
def hexLabel (grid : Grid) (lat_min lat_max lon_min lon_max : ℚ)
    (center : ℚ × ℚ) : String :=
  let height := grid.length
  let width := grid.headI.length
  let row := clampIdx height (hexRow lat_min lat_max height center.1)
  let col := clampIdx width (hexCol lon_min lon_max width center.2)
  getCell grid row.toNat col.toNat

/-- `map_to_hexagons`: choose a resolution from the breakpoint table, take the
disk of `rings` rings around the centre cell, and label every enumerated tile
by its clamped grid projection.  The returned association list models the
Python dict `hex_biomes` (keys in enumeration order). -/
def map_to_hexagons {α : Type} (lib : H3Lib α) (lat lon : ℚ) (grid : Grid)
    (lat_min lat_max lon_min lon_max : ℚ) (area_w area_h hex_size_m : ℚ) :
    List (α × String) :=
  let resolution := selectResolution hex_size_m
  let center_hex := lib.latlng_to_cell lat lon resolution
  let avg_hex_edge := lib.average_hexagon_edge_length resolution
  let rings := computeRings avg_hex_edge area_w area_h
  let hexagons := lib.grid_disk center_hex rings
  hexagons.map (fun hex =>
    (hex, hexLabel grid lat_min lat_max lon_min lon_max (lib.cell_to_latlng hex)))

/-- A small concrete hexagon library over `ℕ` keys used to instantiate the
tessellation theorems on closed inputs. -/
def demoLib : H3Lib Nat where
  latlng_to_cell := fun _ _ _ => 0
  cell_to_latlng := fun h => if h = 0 then (1/2, 1/2) else (0, 0)
  average_hexagon_edge_length := fun _ => 2
  grid_disk := fun c _ => [c, c + 1]
  get_resolution := fun _ => 12
  grid_distance := fun _ _ => some 1
  grid_path_cells := fun a b => some [a, b]

/-! ## The claims about the Tessellator -/

/-- Projecting the keys of a keyed `map` gives back the list. -/
theorem map_fst_map_pair {A B : Type _} (l : List A) (f : A -> B) :
    (l.map (fun x => (x, f x))).map Prod.fst = l := by
  induction l with
  | nil => rfl
  | cons x l ih => simp [ih]

/-- **C2** (counterexample): the specification demands that resolution
selection fail closed for `desiredTileSizeM <= 0`, but `map_to_hexagons` has
no validation at all: with `hex_size_m = 0` the breakpoint chain falls
through to resolution 14 and a fully labelled tile set is returned. -/
theorem c2_counterexample :
    selectResolution 0 = 14 ∧
    map_to_hexagons demoLib 0 0 [["Grassland"]] 0 1 0 1 10 10 0 =
      [(0, "Grassland"), (1, "Grassland")] := by
  constructor
  · with_unfolding_all decide
  · with_unfolding_all decide

/-- **C2** (amended): for every `desiredTileSizeM ≤ 0` the Tessellator does
*not* reject the request: `selectResolution` returns the finest bucket 14 and
`map_to_hexagons` proceeds, enumerating and labelling the disk at resolution
14 (its keys are exactly the disk returned by the hex library). -/
theorem c2_nonpositive_size_selects_14 {α : Type} (lib : H3Lib α) (lat lon : ℚ)
    (grid : Grid) (lat_min lat_max lon_min lon_max area_w area_h : ℚ)
    (hex_size : ℚ) (h : hex_size ≤ 0) :
    selectResolution hex_size = 14 ∧
    (map_to_hexagons lib lat lon grid lat_min lat_max lon_min lon_max
        area_w area_h hex_size).map Prod.fst =
      lib.grid_disk (lib.latlng_to_cell lat lon 14)
        (computeRings (lib.average_hexagon_edge_length 14) area_w area_h) := by
  have hres : selectResolution hex_size = 14 := by
    unfold selectResolution
    have h50 : ¬ (50 : ℚ) ≤ hex_size := by linarith
    have h20 : ¬ (20 : ℚ) ≤ hex_size := by linarith
    have h7 : ¬ (7 : ℚ) ≤ hex_size := by linarith
    have h2 : ¬ (2 : ℚ) ≤ hex_size := by linarith
    rw [if_neg h50, if_neg h20, if_neg h7, if_neg h2]
  refine ⟨hres, ?_⟩
  unfold map_to_hexagons
  rw [hres]
  exact map_fst_map_pair _ _

theorem c2_witness :
    selectResolution (-3) = 14 ∧
    (map_to_hexagons demoLib 0 0 [["Grassland"]] 0 1 0 1 10 10 (-3)).map Prod.fst =
      demoLib.grid_disk (demoLib.latlng_to_cell 0 0 14)
        (computeRings (demoLib.average_hexagon_edge_length 14) 10 10) :=
  c2_nonpositive_size_selects_14 demoLib 0 0 [["Grassland"]] 0 1 0 1 10 10 (-3)
    (by norm_num)

/-- The ring count the specification prescribes:
`ceil((max(widthM, heightM)/2) / (averageEdgeLengthM(resolution)*1.5)) + 1`.
Stated from the specification text, to be compared with the source's
`computeRings`. -/
def specRingCount (avg_hex_edge : ℚ) (area_w area_h : ℚ) : Int :=
  ⌈(max area_w area_h / 2) / (avg_hex_edge * (3 / 2))⌉ + 1

/-- **C4** (counterexample): the source computes `int(...) + 1`, i.e. a
*floor*, not the *ceiling* of the claim.  With an average edge length of 2 m
and a 10 m × 6 m area the quotient is 5/3: the code uses 1 + 1 = 2 rings, the
claimed formula gives 2 + 1 = 3. -/
theorem c4_counterexample :
    computeRings 2 10 6 = 2 ∧ specRingCount 2 10 6 = 3 ∧
    computeRings 2 10 6 ≠ specRingCount 2 10 6 := by
  refine ⟨?_, ?_, ?_⟩ <;> with_unfolding_all decide

/-- **C4** (amended): for every tessellation request with a positive average
edge length and non-negative area, the ring count used by `map_to_hexagons`
equals `floor((max(widthM, heightM)/2) / (averageEdgeLengthM(resolution) *
1.5)) + 1`, and the enumerated tiles are exactly the disk of that many rings
around the centre cell at the chosen resolution. -/
theorem c4_ring_count_floor {α : Type} (lib : H3Lib α) (lat lon : ℚ)
    (grid : Grid) (lat_min lat_max lon_min lon_max area_w area_h hex_size : ℚ)
    (havg : 0 < lib.average_hexagon_edge_length (selectResolution hex_size))
    (hw : 0 ≤ area_w) (_hh : 0 ≤ area_h) :
    computeRings (lib.average_hexagon_edge_length (selectResolution hex_size))
        area_w area_h =
      ⌊(max area_w area_h / 2) /
        (lib.average_hexagon_edge_length (selectResolution hex_size) * (3 / 2))⌋ + 1 ∧
    (map_to_hexagons lib lat lon grid lat_min lat_max lon_min lon_max
        area_w area_h hex_size).map Prod.fst =
      lib.grid_disk (lib.latlng_to_cell lat lon (selectResolution hex_size))
        (computeRings (lib.average_hexagon_edge_length (selectResolution hex_size))
          area_w area_h) := by
  constructor
  · unfold computeRings
    congr 1
    apply pyInt_of_nonneg
    apply div_nonneg
    · apply div_nonneg _ (by norm_num)
      exact le_trans hw (le_max_left _ _)
    · positivity
  · unfold map_to_hexagons
    exact map_fst_map_pair _ _

theorem c4_witness :
    computeRings (demoLib.average_hexagon_edge_length (selectResolution 10)) 10 6 =
      ⌊((max (10 : ℚ) 6) / 2) /
        (demoLib.average_hexagon_edge_length (selectResolution 10) * (3 / 2))⌋ + 1 ∧
    (map_to_hexagons demoLib 0 0 [["Grassland"]] 0 1 0 1 10 6 10).map Prod.fst =
      demoLib.grid_disk (demoLib.latlng_to_cell 0 0 (selectResolution 10))
        (computeRings (demoLib.average_hexagon_edge_length (selectResolution 10))
          10 6) :=
  c4_ring_count_floor demoLib 0 0 [["Grassland"]] 0 1 0 1 10 6 10
    (by with_unfolding_all decide) (by norm_num) (by norm_num)

theorem lookup_map_pair {α β : Type _} [DecidableEq α] (l : List α) (f : α → β)
    (a : α) (h : a ∈ l) : (l.map (fun x => (x, f x))).lookup a = some (f a) := by
  induction l with
  | nil => cases h
  | cons x l ih =>
    by_cases hax : a = x
    · subst hax
      simp [List.lookup]
    · have hbeq : (a == x) = false := beq_false_of_ne hax
      simp only [List.map_cons, List.lookup, hbeq]
      exact ih (List.mem_cons.1 h |>.resolve_left hax)

theorem clampIdx_bounds (n : Nat) (hn : 0 < n) (x : Int) :
    0 ≤ clampIdx n x ∧ clampIdx n x < n := by
  unfold clampIdx
  omega

/-- **C5**: `map_to_hexagons` assigns every enumerated tile exactly one
label: its association list has exactly the disk's cells as keys (tiles whose
centres fall outside the bounding box are clamped, never dropped), the label
looked up for any enumerated tile is the grid cell at the clamped projection
`row = int((1-(lat-latMin)/(latMax-latMin))*height)`,
`col = int((lon-lonMin)/(lonMax-lonMin)*width)` (as `hexLabel`), and the
clamped indices always lie in the valid index ranges. -/
theorem c5_tessellator_assignment {α : Type} [DecidableEq α] (lib : H3Lib α)
    (lat lon : ℚ) (grid : Grid)
    (lat_min lat_max lon_min lon_max area_w area_h hex_size : ℚ)
    (hh : 0 < grid.length) (hw : 0 < grid.headI.length)
    (_hlat : lat_min < lat_max) (_hlon : lon_min < lon_max) :
    (map_to_hexagons lib lat lon grid lat_min lat_max lon_min lon_max
        area_w area_h hex_size).map Prod.fst =
      lib.grid_disk (lib.latlng_to_cell lat lon (selectResolution hex_size))
        (computeRings (lib.average_hexagon_edge_length (selectResolution hex_size))
          area_w area_h) ∧
    (∀ hex ∈ lib.grid_disk (lib.latlng_to_cell lat lon (selectResolution hex_size))
        (computeRings (lib.average_hexagon_edge_length (selectResolution hex_size))
          area_w area_h),
      (map_to_hexagons lib lat lon grid lat_min lat_max lon_min lon_max
          area_w area_h hex_size).lookup hex =
        some (hexLabel grid lat_min lat_max lon_min lon_max
          (lib.cell_to_latlng hex))) ∧
    (∀ center : ℚ × ℚ,
      0 ≤ clampIdx grid.length (hexRow lat_min lat_max grid.length center.1) ∧
      clampIdx grid.length (hexRow lat_min lat_max grid.length center.1)
        < grid.length ∧
      0 ≤ clampIdx grid.headI.length
            (hexCol lon_min lon_max grid.headI.length center.2) ∧
      clampIdx grid.headI.length (hexCol lon_min lon_max grid.headI.length center.2)
        < grid.headI.length) := by
  refine ⟨?_, ?_, ?_⟩
  · unfold map_to_hexagons
    exact map_fst_map_pair _ _
  · intro hex hmem
    unfold map_to_hexagons
    exact lookup_map_pair _ _ hex hmem
  · intro center
    obtain ⟨h1, h2⟩ := clampIdx_bounds grid.length hh
      (hexRow lat_min lat_max grid.length center.1)
    obtain ⟨h3, h4⟩ := clampIdx_bounds grid.headI.length hw
      (hexCol lon_min lon_max grid.headI.length center.2)
    exact ⟨h1, h2, h3, h4⟩

theorem c5_witness :
    (map_to_hexagons demoLib 0 0 [["Grassland"]] 0 1 0 1 10 10 10).lookup 0 =
      some (hexLabel [["Grassland"]] 0 1 0 1 (demoLib.cell_to_latlng 0)) :=
  (c5_tessellator_assignment demoLib 0 0 [["Grassland"]] 0 1 0 1 10 10 10
    (by norm_num) (by norm_num) (by norm_num) (by norm_num)).2.1 0
    (by with_unfolding_all decide)

/-! ## SpatialIndex: `build_hex_spatial_index` and `find_nearest_hex_fast` -/

/-- `build_hex_spatial_index`: the dict `hex_id -> (lat, lon)` as an
association list in iteration order. -/
def build_hex_spatial_index {α : Type} (lib : H3Lib α) (hexagons : List α) :
    List (α × ℚ × ℚ) :=
  hexagons.map (fun h => (h, lib.cell_to_latlng h))

/-- The squared anisotropic distance
`d = ((h_lon - pt_lon) * lat_correction)^2 + (h_lat - pt_lat)^2`. -/
def hexDist2 (pt_lat pt_lon lat_correction : ℚ) (pos : ℚ × ℚ) : ℚ :=
  ((pos.2 - pt_lon) * lat_correction) ^ 2 + (pos.1 - pt_lat) ^ 2

/-- One iteration of the scan in `find_nearest_hex_fast` (the accumulator is
`(min_dist, nearest)`, `none` standing for the initial `(inf, None)`). -/
def nfStep {α : Type} (pt_lat pt_lon lat_correction : ℚ)
    (acc : Option (ℚ × α)) (e : α × ℚ × ℚ) : Option (ℚ × α) :=
  let d := hexDist2 pt_lat pt_lon lat_correction e.2
  match acc with
  | none => some (d, e.1)
  | some (m, b) => if d < m then some (d, e.1) else some (m, b)

/-- `find_nearest_hex_fast`: linear scan keeping the first strict minimum. -/
def find_nearest_hex_fast {α : Type} (pt_lat pt_lon : ℚ)
    (hex_positions : List (α × ℚ × ℚ)) (lat_correction : ℚ) : Option α :=
  (hex_positions.foldl (nfStep pt_lat pt_lon lat_correction) none).map Prod.snd

/-- Specification form of the scan: the earliest element of minimal value. -/
def firstArgmin {α : Type} (f : α → ℚ) : List α → Option α
  | [] => none
  | e :: es =>
    match firstArgmin f es with
    | none => some e
    | some b => if f b < f e then some b else some e

theorem firstArgmin_nil {α : Type} (f : α → ℚ) : firstArgmin f [] = none := rfl

theorem firstArgmin_cons {α : Type} (f : α → ℚ) (e : α) (es : List α) :
    firstArgmin f (e :: es) =
      match firstArgmin f es with
      | none => some e
      | some b => if f b < f e then some b else some e := rfl

theorem firstArgmin_cons_none {α : Type} {f : α → ℚ} {e : α} {es : List α}
    (hb : firstArgmin f es = none) : firstArgmin f (e :: es) = some e := by
  rw [firstArgmin_cons, hb]

theorem firstArgmin_cons_some {α : Type} {f : α → ℚ} {e b : α} {es : List α}
    (hb : firstArgmin f es = some b) :
    firstArgmin f (e :: es) = if f b < f e then some b else some e := by
  rw [firstArgmin_cons, hb]

theorem firstArgmin_eq_none {α : Type} (f : α → ℚ) (l : List α) :
    firstArgmin f l = none ↔ l = [] := by
  cases l with
  | nil => simp [firstArgmin_nil]
  | cons e es =>
    cases hb : firstArgmin f es with
    | none => rw [firstArgmin_cons_none hb]; simp
    | some b =>
      rw [firstArgmin_cons_some hb]
      by_cases hc : f b < f e
      · rw [if_pos hc]; simp
      · rw [if_neg hc]; simp

theorem firstArgmin_mem {α : Type} {f : α → ℚ} {l : List α} {e : α}
    (h : firstArgmin f l = some e) : e ∈ l := by
  induction l with
  | nil => cases h
  | cons x es ih =>
    cases hb : firstArgmin f es with
    | none =>
      rw [firstArgmin_cons_none hb] at h
      cases h
      exact List.mem_cons_self _ _
    | some b =>
      rw [firstArgmin_cons_some hb] at h
      by_cases hc : f b < f x
      · rw [if_pos hc] at h; cases h; exact List.mem_cons_of_mem _ (ih hb)
      · rw [if_neg hc] at h; cases h; exact List.mem_cons_self _ _

theorem firstArgmin_min {α : Type} {f : α → ℚ} {l : List α} :
    ∀ {e : α}, firstArgmin f l = some e → ∀ x ∈ l, f e ≤ f x := by
  induction l with
  | nil => intro e h; cases h
  | cons y es ih =>
    intro e h x hx
    cases hb : firstArgmin f es with
    | none =>
      rw [firstArgmin_cons_none hb] at h
      have hye : y = e := Option.some.inj h
      subst hye
      have hes : es = [] := (firstArgmin_eq_none f es).1 hb
      subst hes
      rcases List.mem_cons.1 hx with rfl | hx
      · exact le_refl _
      · cases hx
    | some b =>
      rw [firstArgmin_cons_some hb] at h
      by_cases hc : f b < f y
      · rw [if_pos hc] at h
        have hbe : b = e := Option.some.inj h
        subst hbe
        rcases List.mem_cons.1 hx with rfl | hx
        · exact le_of_lt hc
        · exact ih hb x hx
      · rw [if_neg hc] at h
        have hye : y = e := Option.some.inj h
        subst hye
        rcases List.mem_cons.1 hx with rfl | hx
        · exact le_refl _
        · exact le_trans (not_lt.1 hc) (ih hb x hx)

theorem firstArgmin_split {α : Type} {f : α → ℚ} {l : List α} {e : α}
    (h : firstArgmin f l = some e) :
    ∃ l1 l2, l = l1 ++ e :: l2 ∧ ∀ x ∈ l1, f e < f x := by
  induction l with
  | nil => cases h
  | cons y es ih =>
    cases hb : firstArgmin f es with
    | none =>
      rw [firstArgmin_cons_none hb] at h
      cases h
      exact ⟨[], es, rfl, by intro x hx; cases hx⟩
    | some b =>
      rw [firstArgmin_cons_some hb] at h
      by_cases hc : f b < f y
      · rw [if_pos hc] at h
        have hbe : b = e := Option.some.inj h
        subst hbe
        obtain ⟨l1, l2, hsplit, hpre⟩ := ih hb
        refine ⟨y :: l1, l2, by rw [hsplit]; rfl, ?_⟩
        intro x hx
        rcases List.mem_cons.1 hx with rfl | hx
        · exact hc
        · exact hpre x hx
      · rw [if_neg hc] at h
        have hye : y = e := Option.some.inj h
        subst hye
        exact ⟨[], es, rfl, by intro x hx; cases hx⟩

theorem firstArgmin_of_split {α : Type} {f : α → ℚ} {l1 l2 : List α} {e : α}
    (h1 : ∀ x ∈ l1, f e < f x) (h2 : ∀ x ∈ l2, f e ≤ f x) :
    firstArgmin f (l1 ++ e :: l2) = some e := by
  induction l1 with
  | nil =>
    rw [List.nil_append]
    cases hb : firstArgmin f l2 with
    | none => exact firstArgmin_cons_none hb
    | some b =>
      rw [firstArgmin_cons_some hb]
      have hble : f e ≤ f b := h2 b (firstArgmin_mem hb)
      rw [if_neg (not_lt.2 hble)]
  | cons a l1 ih =>
    rw [List.cons_append]
    have hinner : firstArgmin f (l1 ++ e :: l2) = some e :=
      ih (fun x hx => h1 x (List.mem_cons_of_mem _ hx))
    rw [firstArgmin_cons_some hinner, if_pos (h1 a (List.mem_cons_self _ _))]

theorem append_cons_eq_of_nodup {α : Type} {l1 l2 m1 m2 : List α} {e : α}
    (h : l1 ++ e :: l2 = m1 ++ e :: m2) (nd : (l1 ++ e :: l2).Nodup) :
    l1 = m1 ∧ l2 = m2 := by
  induction l1 generalizing m1 with
  | nil =>
    cases m1 with
    | nil => simpa using h
    | cons b m1 =>
      rw [List.nil_append, List.cons_append] at h
      obtain ⟨rfl, htail⟩ := List.cons_eq_cons.1 h
      exfalso
      rw [List.nil_append] at nd
      apply (List.nodup_cons.1 nd).1
      rw [htail]
      exact List.mem_append_right _ (List.mem_cons_self _ _)
  | cons a l1 ih =>
    cases m1 with
    | nil =>
      rw [List.cons_append, List.nil_append] at h
      obtain ⟨rfl, htail⟩ := List.cons_eq_cons.1 h
      exfalso
      rw [List.cons_append] at nd
      apply (List.nodup_cons.1 nd).1
      exact List.mem_append_right _ (List.mem_cons_self _ _)
    | cons b m1 =>
      rw [List.cons_append, List.cons_append] at h
      obtain ⟨rfl, htail⟩ := List.cons_eq_cons.1 h
      rw [List.cons_append] at nd
      obtain ⟨hl, hr⟩ := ih htail (List.nodup_cons.1 nd).2
      exact ⟨by rw [hl], hr⟩

theorem mem_keys_unique {α β : Type _} {l : List (α × β)}
    (hnd : (l.map Prod.fst).Nodup) {e e' : α × β}
    (he : e ∈ l) (he' : e' ∈ l) (hfst : e.1 = e'.1) : e = e' := by
  induction l with
  | nil => cases he
  | cons x tl ih =>
    rw [List.map_cons] at hnd
    have hx := List.nodup_cons.1 hnd
    rcases List.mem_cons.1 he with h1 | h1
    · rcases List.mem_cons.1 he' with h2 | h2
      · rw [h1, h2]
      · exfalso
        apply hx.1
        rw [← h1, hfst]
        exact List.mem_map_of_mem Prod.fst h2
    · rcases List.mem_cons.1 he' with h2 | h2
      · exfalso
        apply hx.1
        rw [← h2, ← hfst]
        exact List.mem_map_of_mem Prod.fst h1
      · exact ih hx.2 h1 h2

theorem nfStep_none {α : Type} (plat plon c : ℚ) (e : α × ℚ × ℚ) :
    nfStep plat plon c none e = some (hexDist2 plat plon c e.2, e.1) := rfl

theorem nfStep_some {α : Type} (plat plon c : ℚ) (m : ℚ) (b : α) (e : α × ℚ × ℚ) :
    nfStep plat plon c (some (m, b)) e =
      if hexDist2 plat plon c e.2 < m
        then some (hexDist2 plat plon c e.2, e.1) else some (m, b) := rfl

theorem nfFold_some_spec {α : Type} (plat plon c : ℚ) (l : List (α × ℚ × ℚ)) :
    ∀ (d0 : ℚ) (k0 : α),
    l.foldl (nfStep plat plon c) (some (d0, k0)) =
      match firstArgmin (fun e => hexDist2 plat plon c e.2) l with
      | none => some (d0, k0)
      | some b => if hexDist2 plat plon c b.2 < d0
          then some (hexDist2 plat plon c b.2, b.1) else some (d0, k0) := by
  induction l with
  | nil => intro d0 k0; rfl
  | cons e es ih =>
    intro d0 k0
    rw [List.foldl_cons, nfStep_some]
    by_cases hlt : hexDist2 plat plon c e.2 < d0
    · rw [if_pos hlt, ih]
      cases hb : firstArgmin (fun e => hexDist2 plat plon c e.2) es with
      | none =>
        rw [firstArgmin_cons_none hb]
        simp only
        rw [if_pos hlt]
      | some b =>
        rw [firstArgmin_cons_some hb]
        by_cases hc : hexDist2 plat plon c b.2 < hexDist2 plat plon c e.2
        · rw [if_pos hc]
          simp only
          rw [if_pos (lt_trans hc hlt), if_pos hc]
        · rw [if_neg hc]
          simp only
          rw [if_neg hc, if_pos hlt]
    · rw [if_neg hlt, ih]
      cases hb : firstArgmin (fun e => hexDist2 plat plon c e.2) es with
      | none =>
        rw [firstArgmin_cons_none hb]
        simp only
        rw [if_neg hlt]
      | some b =>
        rw [firstArgmin_cons_some hb]
        by_cases hc : hexDist2 plat plon c b.2 < hexDist2 plat plon c e.2
        · rw [if_pos hc]
        · rw [if_neg hc]
          simp only
          rw [if_neg hlt, if_neg (fun hbd => hlt (lt_of_le_of_lt (not_lt.1 hc) hbd))]

theorem nfFold_eq {α : Type} (plat plon c : ℚ) (l : List (α × ℚ × ℚ)) :
    l.foldl (nfStep plat plon c) none =
      (firstArgmin (fun e => hexDist2 plat plon c e.2) l).map
        (fun e => (hexDist2 plat plon c e.2, e.1)) := by
  cases l with
  | nil => rfl
  | cons e es =>
    rw [List.foldl_cons, nfStep_none, nfFold_some_spec]
    cases hb : firstArgmin (fun e => hexDist2 plat plon c e.2) es with
    | none =>
      rw [firstArgmin_cons_none hb]
      rfl
    | some b =>
      rw [firstArgmin_cons_some hb]
      by_cases hc : hexDist2 plat plon c b.2 < hexDist2 plat plon c e.2
      · rw [if_pos hc]
        simp only
        rw [if_pos hc]
        rfl
      · rw [if_neg hc]
        simp only
        rw [if_neg hc]
        rfl

/-- `find_nearest_hex_fast` returns the key of the earliest entry with
minimal anisotropic squared distance. -/
theorem find_nearest_eq {α : Type} (plat plon c : ℚ) (l : List (α × ℚ × ℚ)) :
    find_nearest_hex_fast plat plon l c =
      (firstArgmin (fun e => hexDist2 plat plon c e.2) l).map Prod.fst := by
  unfold find_nearest_hex_fast
  rw [nfFold_eq]
  cases firstArgmin (fun e => hexDist2 plat plon c e.2) l <;> rfl

/-- The squared-distance interpolation identity: along the segment, the
distance to any entry is an affine combination of the endpoint distances,
up to a constant independent of the entry. -/
theorem hexDist2_lerp (lat1 lon1 lat2 lon2 c t : ℚ) (pos : ℚ × ℚ) :
    hexDist2 (lat1 + t * (lat2 - lat1)) (lon1 + t * (lon2 - lon1)) c pos =
      (1 - t) * hexDist2 lat1 lon1 c pos + t * hexDist2 lat2 lon2 c pos
        - t * (1 - t) * (((lon2 - lon1) * c) ^ 2 + (lat2 - lat1) ^ 2) := by
  unfold hexDist2
  ring

/-- Key convexity fact for LineSnapper: if both endpoints of a segment
resolve to the same tile `T` under `find_nearest_hex_fast`, then so does
every point of the segment (keys assumed distinct, as they are for a disk of
cells). -/
theorem find_nearest_lerp {α : Type} (l : List (α × ℚ × ℚ))
    (hnd : (l.map Prod.fst).Nodup) (lat1 lon1 lat2 lon2 c t : ℚ)
    (ht0 : 0 ≤ t) (ht1 : t ≤ 1) (T : α)
    (h1 : find_nearest_hex_fast lat1 lon1 l c = some T)
    (h2 : find_nearest_hex_fast lat2 lon2 l c = some T) :
    find_nearest_hex_fast (lat1 + t * (lat2 - lat1)) (lon1 + t * (lon2 - lon1))
      l c = some T := by
  rw [find_nearest_eq] at h1 h2 ⊢
  set f := fun e : α × ℚ × ℚ => hexDist2 lat1 lon1 c e.2 with hf
  set g := fun e : α × ℚ × ℚ => hexDist2 lat2 lon2 c e.2 with hg
  set h := fun e : α × ℚ × ℚ =>
    hexDist2 (lat1 + t * (lat2 - lat1)) (lon1 + t * (lon2 - lon1)) c e.2 with hh
  obtain ⟨e1, he1, hk1⟩ : ∃ e1, firstArgmin f l = some e1 ∧ e1.1 = T := by
    cases hfa : firstArgmin f l with
    | none => rw [hfa] at h1; cases h1
    | some e1 => rw [hfa] at h1; exact ⟨e1, rfl, Option.some.inj h1⟩
  obtain ⟨e2, he2, hk2⟩ : ∃ e2, firstArgmin g l = some e2 ∧ e2.1 = T := by
    cases hfa : firstArgmin g l with
    | none => rw [hfa] at h2; cases h2
    | some e2 => rw [hfa] at h2; exact ⟨e2, rfl, Option.some.inj h2⟩
  have he12 : e1 = e2 :=
    mem_keys_unique hnd (firstArgmin_mem he1) (firstArgmin_mem he2)
      (by rw [hk1, hk2])
  subst he12
  have haff : ∀ e : α × ℚ × ℚ, h e = (1 - t) * f e + t * g e
      - t * (1 - t) * (((lon2 - lon1) * c) ^ 2 + (lat2 - lat1) ^ 2) := by
    intro e
    rw [hf, hg, hh]
    exact hexDist2_lerp lat1 lon1 lat2 lon2 c t e.2
  obtain ⟨l1, l2, hsplit, hpre_f⟩ := firstArgmin_split he1
  obtain ⟨m1, m2, hsplit_g, hpre_g⟩ := firstArgmin_split he2
  have hndl : l.Nodup := List.Nodup.of_map Prod.fst hnd
  obtain ⟨hm1, hm2⟩ : l1 = m1 ∧ l2 = m2 := by
    apply append_cons_eq_of_nodup
    · rw [← hsplit, ← hsplit_g]
    · rw [← hsplit]; exact hndl
  subst hm1 hm2
  have hmin_f : ∀ x ∈ l, f e1 ≤ f x := firstArgmin_min he1
  have hmin_g : ∀ x ∈ l, g e1 ≤ g x := firstArgmin_min he2
  have hresult : firstArgmin h l = some e1 := by
    rw [hsplit]
    apply firstArgmin_of_split
    · intro x hx
      have hxl : x ∈ l := by rw [hsplit]; exact List.mem_append_left _ hx
      have hA : 0 < f x - f e1 := sub_pos.2 (hpre_f x hx)
      have hB : 0 < g x - g e1 := sub_pos.2 (hpre_g x hx)
      have hkey : h x - h e1 = (1 - t) * (f x - f e1) + t * (g x - g e1) := by
        rw [haff x, haff e1]; ring
      rcases eq_or_lt_of_le ht0 with ht0' | ht0'
      · have ht : t = 0 := ht0'.symm
        rw [ht] at hkey
        have : h x - h e1 = f x - f e1 := by rw [hkey]; ring
        linarith
      · have hA' : 0 ≤ (1 - t) * (f x - f e1) :=
          mul_nonneg (by linarith) (le_of_lt hA)
        have hB' : 0 < t * (g x - g e1) := mul_pos ht0' hB
        have : 0 < h x - h e1 := by rw [hkey]; linarith
        linarith
    · intro x hx
      have hxl : x ∈ l := by
        rw [hsplit]
        exact List.mem_append_right _ (List.mem_cons_of_mem _ hx)
      have hA : 0 ≤ f x - f e1 := sub_nonneg.2 (hmin_f x hxl)
      have hB : 0 ≤ g x - g e1 := sub_nonneg.2 (hmin_g x hxl)
      have hkey : h x - h e1 = (1 - t) * (f x - f e1) + t * (g x - g e1) := by
        rw [haff x, haff e1]; ring
      have hA' : 0 ≤ (1 - t) * (f x - f e1) := mul_nonneg (by linarith) hA
      have hB' : 0 ≤ t * (g x - g e1) := mul_nonneg ht0 hB
      have : 0 ≤ h x - h e1 := by rw [hkey]; linarith
      linarith
  rw [hresult]
  simp [hk1]

/-! ## LineSnapper: `snap_rivers_to_hexes` -/

/-- The bounding envelope of the tile-set centres (`lat_min, lat_max = min(all_lats),
max(all_lats)` and likewise for longitudes). -/
structure Env where
  lat_min : ℚ
  lat_max : ℚ
  lon_min : ℚ
  lon_max : ℚ

/-- The envelope computed by the snappers from all hexagon centres. -/
def hexEnv {α : Type} (lib : H3Lib α) (hexagons : List α) : Env where
  lat_min := pyMin (hexagons.map (fun h => (lib.cell_to_latlng h).1))
  lat_max := pyMax (hexagons.map (fun h => (lib.cell_to_latlng h).1))
  lon_min := pyMin (hexagons.map (fun h => (lib.cell_to_latlng h).2))
  lon_max := pyMax (hexagons.map (fun h => (lib.cell_to_latlng h).2))

/-- The bounds test `lat_min <= lat <= lat_max and lon_min <= lon <= lon_max`. -/
def Env.contains (env : Env) (lat lon : ℚ) : Prop :=
  env.lat_min ≤ lat ∧ lat ≤ env.lat_max ∧ env.lon_min ≤ lon ∧ lon ≤ env.lon_max

instance (env : Env) (lat lon : ℚ) : Decidable (env.contains lat lon) := by
  unfold Env.contains; infer_instance

/-- `num_points = max(10, int(segment_length / (avg_hex_edge * 0.3)))` where
`segment_length` is the planar approximation of the segment's metre length. -/
def riverNumPoints (ml : MathLib) (avg_hex_edge : ℚ) (lon1 lat1 lon2 lat2 : ℚ) : Int :=
  let lat_avg := (lat1 + lat2) / 2
  let dx := (lon2 - lon1) * 111320 * |ml.cosdeg lat_avg|
  let dy := (lat2 - lat1) * 111320
  let segment_length := ml.sqrt (dx ^ 2 + dy ^ 2)
  max 10 (pyInt (segment_length / (avg_hex_edge * (3 / 10))))

/-- The tiles added when bridging from `prev` to `nxt`: the shortest-path
cells when the grid distance computes and is at most 3; nothing when the
distance fails, exceeds 3, or the path computation fails (both failures are
the `except: pass` branches of the source). -/
def bridgeSet {α : Type} [DecidableEq α] (lib : H3Lib α) (prev nxt : α) : Finset α :=
  match lib.grid_distance prev nxt with
  | none => ∅
  | some gd =>
    if gd ≤ 3 then
      match lib.grid_path_cells prev nxt with
      | none => ∅
      | some bridge => bridge.toFinset
    else ∅

/-- The latitude of the `j`-th interpolation sample
(`t = j / num_points; pt_lat = lat1 + t * (lat2 - lat1)`). -/
def sampleLat (lat1 lat2 : ℚ) (num_points : Int) (j : Nat) : ℚ :=
  lat1 + ((j : ℚ) / (num_points : ℚ)) * (lat2 - lat1)

/-- The longitude of the `j`-th interpolation sample. -/
def sampleLon (lon1 lon2 : ℚ) (num_points : Int) (j : Nat) : ℚ :=
  lon1 + ((j : ℚ) / (num_points : ℚ)) * (lon2 - lon1)

/-- One iteration of the `for j in range(num_points + 1)` loop of
`snap_rivers_to_hexes`.  The state is `(water_hexes, prev_hex)`: out-of-bounds
samples clear `prev_hex`; in-bounds samples add their nearest tile, bridge
from the previous tile when it exists and differs, and become the new
`prev_hex`. -/
def riverSample {α : Type} [DecidableEq α] (lib : H3Lib α) (env : Env)
    (hex_positions : List (α × ℚ × ℚ)) (lat_correction : ℚ)
    (lon1 lat1 lon2 lat2 : ℚ) (num_points : Int)
    (st : Finset α × Option α) (j : Nat) : Finset α × Option α :=
  let pt_lon := sampleLon lon1 lon2 num_points j
  let pt_lat := sampleLat lat1 lat2 num_points j
  if env.contains pt_lat pt_lon then
    match find_nearest_hex_fast pt_lat pt_lon hex_positions lat_correction with
    | none => st
    | some nearest =>
      let water := insert nearest st.1
      let water :=
        match st.2 with
        | some prev =>
          if prev ≠ nearest then water ∪ bridgeSet lib prev nearest else water
        | none => water
      (water, some nearest)
  else (st.1, none)

/-- Processing of one river segment `(coords[i], coords[i+1])`: skipped when
both endpoints are out of the envelope, otherwise sampled at
`num_points + 1` interpolation points. -/
def riverSegment {α : Type} [DecidableEq α] (lib : H3Lib α) (ml : MathLib)
    (env : Env) (hex_positions : List (α × ℚ × ℚ))
    (lat_correction avg_hex_edge : ℚ) (water : Finset α)
    (seg : (ℚ × ℚ) × ℚ × ℚ) : Finset α :=
  let lon1 := seg.1.1
  let lat1 := seg.1.2
  let lon2 := seg.2.1
  let lat2 := seg.2.2
  if env.contains lat1 lon1 ∨ env.contains lat2 lon2 then
    let num_points := riverNumPoints ml avg_hex_edge lon1 lat1 lon2 lat2
    ((List.range (num_points.toNat + 1)).foldl
      (riverSample lib env hex_positions lat_correction lon1 lat1 lon2 lat2
        num_points)
      (water, none)).1
  else water

/-- `snap_rivers_to_hexes`: snap every consecutive vertex pair of every river
line.  Coordinates are `(lon, lat)` pairs as stored in the GeoJSON geometry;
a line with fewer than two vertices yields no segment pair. -/
def snap_rivers_to_hexes {α : Type} [DecidableEq α] [Inhabited α]
    (lib : H3Lib α) (ml : MathLib) (rivers : List (List (ℚ × ℚ)))
    (hexagons : List α) (lat_correction : ℚ) : Finset α :=
  let env := hexEnv lib hexagons
  let hex_positions := build_hex_spatial_index lib hexagons
  let avg_hex_edge := lib.average_hexagon_edge_length
    (lib.get_resolution hexagons.headI)
  rivers.foldl (fun water coords =>
    (coords.zip coords.tail).foldl
      (riverSegment lib ml env hex_positions lat_correction avg_hex_edge)
      water) ∅


/-! ## The claims about the sampling and bridging step (C9) -/

/-- **C9**: the per-sample behaviour of LineSnapper's tracing loop.
(i) An out-of-bounds sample leaves the accumulated set unchanged and clears
the previous-tile tracker, so no bridge is attempted across the excluded
region.  (ii) When the sample is in bounds and its nearest tile differs from
the tracked previous tile, the step adds exactly that nearest tile together
with `bridgeSet prev nearest`.  (iii) When there is no previous tile, or the
nearest tile repeats it, only the nearest tile is added.  (iv) `bridgeSet`
contains the shortest-path cells precisely when the grid-distance computation
succeeds with distance ≤ 3 and the path computation succeeds; a failed
distance, a distance above 3, or a failed path each yield the empty bridge —
the step is a total function, so those failures never propagate as errors. -/
theorem c9_bridging_policy {α : Type} [DecidableEq α] (lib : H3Lib α)
    (env : Env) (hex_positions : List (α × ℚ × ℚ)) (lat_correction : ℚ)
    (lon1 lat1 lon2 lat2 : ℚ) (num_points : Int) (st : Finset α × Option α)
    (j : Nat) :
    (¬ env.contains (sampleLat lat1 lat2 num_points j)
        (sampleLon lon1 lon2 num_points j) →
      riverSample lib env hex_positions lat_correction lon1 lat1 lon2 lat2
        num_points st j = (st.1, none)) ∧
    (∀ nxt prev,
      env.contains (sampleLat lat1 lat2 num_points j)
        (sampleLon lon1 lon2 num_points j) →
      find_nearest_hex_fast (sampleLat lat1 lat2 num_points j)
        (sampleLon lon1 lon2 num_points j) hex_positions lat_correction = some nxt →
      st.2 = some prev → prev ≠ nxt →
      riverSample lib env hex_positions lat_correction lon1 lat1 lon2 lat2
        num_points st j = (insert nxt st.1 ∪ bridgeSet lib prev nxt, some nxt)) ∧
    (∀ nxt,
      env.contains (sampleLat lat1 lat2 num_points j)
        (sampleLon lon1 lon2 num_points j) →
      find_nearest_hex_fast (sampleLat lat1 lat2 num_points j)
        (sampleLon lon1 lon2 num_points j) hex_positions lat_correction = some nxt →
      (st.2 = none ∨ st.2 = some nxt) →
      riverSample lib env hex_positions lat_correction lon1 lat1 lon2 lat2
        num_points st j = (insert nxt st.1, some nxt)) ∧
    (∀ prev nxt gd path, lib.grid_distance prev nxt = some gd → gd ≤ 3 →
      lib.grid_path_cells prev nxt = some path →
      bridgeSet lib prev nxt = path.toFinset) ∧
    (∀ prev nxt, lib.grid_distance prev nxt = none →
      bridgeSet lib prev nxt = ∅) ∧
    (∀ prev nxt gd, lib.grid_distance prev nxt = some gd → 3 < gd →
      bridgeSet lib prev nxt = ∅) ∧
    (∀ prev nxt gd, lib.grid_distance prev nxt = some gd → gd ≤ 3 →
      lib.grid_path_cells prev nxt = none → bridgeSet lib prev nxt = ∅) := by
  refine ⟨?_, ?_, ?_, ?_, ?_, ?_, ?_⟩
  · intro hout
    unfold riverSample
    rw [if_neg hout]
  · intro nxt prev hin hnear hprev hne
    unfold riverSample
    rw [if_pos hin, hnear]
    simp only [hprev]
    rw [if_pos hne]
  · intro nxt hin hnear hprev
    unfold riverSample
    rw [if_pos hin, hnear]
    rcases hprev with hprev | hprev
    · simp only [hprev]
    · simp only [hprev]
      rw [if_neg (fun hne : nxt ≠ nxt => hne rfl)]
  · intro prev nxt gd path hgd hle hpath
    unfold bridgeSet
    rw [hgd]
    simp only
    rw [if_pos hle, hpath]
  · intro prev nxt hgd
    unfold bridgeSet
    rw [hgd]
  · intro prev nxt gd hgd hgt
    unfold bridgeSet
    rw [hgd]
    simp only
    rw [if_neg (not_le.2 hgt)]
  · intro prev nxt gd hgd hle hpath
    unfold bridgeSet
    rw [hgd]
    simp only
    rw [if_pos hle, hpath]

/-- Witness for C9 on a concrete instance: an in-bounds sample bridging from
previous tile 1 to nearest tile 0 (grid distance 1 via `demoLib`, path
`[1, 0]`). -/
theorem c9_witness :
    riverSample demoLib ⟨0, 1, 0, 1⟩ [(0, 0, 0), (1, 1, 1)] 1 0 0 1 1 10
      ({5}, some 1) 0 = (insert 0 ({5} : Finset Nat) ∪ bridgeSet demoLib 1 0, some 0) :=
  (c9_bridging_policy demoLib ⟨0, 1, 0, 1⟩ [(0, 0, 0), (1, 1, 1)] 1 0 0 1 1 10
      ({5}, some 1) 0).2.1 0 1
    (by with_unfolding_all decide)
    (by with_unfolding_all decide)
    rfl
    (by decide)

/-! ## The claims about LineSnapper (C8) -/

theorem lerp_lower (lo a b t : ℚ) (ht0 : 0 ≤ t) (ht1 : t ≤ 1)
    (ha : lo ≤ a) (hb : lo ≤ b) : lo ≤ a + t * (b - a) := by
  nlinarith [mul_nonneg ht0 (sub_nonneg.2 hb),
    mul_nonneg (sub_nonneg.2 ht1) (sub_nonneg.2 ha)]

theorem lerp_upper (hi a b t : ℚ) (ht0 : 0 ≤ t) (ht1 : t ≤ 1)
    (ha : a ≤ hi) (hb : b ≤ hi) : a + t * (b - a) ≤ hi := by
  nlinarith [mul_nonneg ht0 (sub_nonneg.2 hb),
    mul_nonneg (sub_nonneg.2 ht1) (sub_nonneg.2 ha)]

theorem sample_t_bounds (N : Int) (hN : 0 < N) (j : Nat) (hj : j ≤ N.toNat) :
    0 ≤ ((j : ℚ) / (N : ℚ)) ∧ ((j : ℚ) / (N : ℚ)) ≤ 1 := by
  have hNq : (0 : ℚ) < (N : ℚ) := by exact_mod_cast hN
  constructor
  · positivity
  · rw [div_le_one hNq]
    have h1 : ((j : ℕ) : ℚ) ≤ ((N.toNat : ℕ) : ℚ) := by exact_mod_cast hj
    have h2 : ((N.toNat : ℕ) : ℚ) = ((N : ℤ) : ℚ) := by
      exact_mod_cast congrArg (fun z : ℤ => (z : ℚ)) (Int.toNat_of_nonneg (le_of_lt hN))
    rw [h2] at h1
    exact h1

/-- An in-envelope sample whose nearest tile is the already-tracked `T` keeps
the state `({T}, some T)` fixed. -/
theorem riverSample_fixed {α : Type} [DecidableEq α] (lib : H3Lib α)
    (env : Env) (positions : List (α × ℚ × ℚ)) (c : ℚ)
    (lon1 lat1 lon2 lat2 : ℚ) (N : Int) (T : α) (j : Nat)
    (hin : env.contains (sampleLat lat1 lat2 N j) (sampleLon lon1 lon2 N j))
    (hnear : find_nearest_hex_fast (sampleLat lat1 lat2 N j)
      (sampleLon lon1 lon2 N j) positions c = some T) :
    riverSample lib env positions c lon1 lat1 lon2 lat2 N ({T}, some T) j
      = ({T}, some T) := by
  unfold riverSample
  rw [if_pos hin, hnear]
  simp only
  rw [if_neg (fun h : T ≠ T => h rfl)]
  rw [Finset.insert_eq_self.2 (Finset.mem_singleton_self T)]

/-- The first in-envelope sample turns the initial state into `({T}, some T)`. -/
theorem riverSample_first {α : Type} [DecidableEq α] (lib : H3Lib α)
    (env : Env) (positions : List (α × ℚ × ℚ)) (c : ℚ)
    (lon1 lat1 lon2 lat2 : ℚ) (N : Int) (T : α) (j : Nat)
    (hin : env.contains (sampleLat lat1 lat2 N j) (sampleLon lon1 lon2 N j))
    (hnear : find_nearest_hex_fast (sampleLat lat1 lat2 N j)
      (sampleLon lon1 lon2 N j) positions c = some T) :
    riverSample lib env positions c lon1 lat1 lon2 lat2 N (∅, none) j
      = ({T}, some T) := by
  unfold riverSample
  rw [if_pos hin, hnear]
  rfl

theorem riverSampleFold_const {α : Type} [DecidableEq α] (lib : H3Lib α)
    (env : Env) (positions : List (α × ℚ × ℚ)) (c : ℚ)
    (lon1 lat1 lon2 lat2 : ℚ) (N : Int) (T : α) (js : List Nat)
    (hgood : ∀ j ∈ js,
      env.contains (sampleLat lat1 lat2 N j) (sampleLon lon1 lon2 N j) ∧
      find_nearest_hex_fast (sampleLat lat1 lat2 N j) (sampleLon lon1 lon2 N j)
        positions c = some T) :
    js.foldl (riverSample lib env positions c lon1 lat1 lon2 lat2 N)
      ({T}, some T) = ({T}, some T) := by
  induction js with
  | nil => rfl
  | cons j js ih =>
    rw [List.foldl_cons]
    have hj := hgood j (List.mem_cons_self _ _)
    rw [riverSample_fixed lib env positions c lon1 lat1 lon2 lat2 N T j hj.1 hj.2]
    exact ih (fun i hi => hgood i (List.mem_cons_of_mem _ hi))

/-- **C8**: a single 2-vertex river segment whose endpoints both lie in the
tile set's envelope and both resolve (via `find_nearest_hex_fast` over the
tile index) to the same tile `T` snaps to exactly the singleton `{T}`:
every interpolated sample stays in the envelope (the envelope is a box) and
still resolves to `T` (squared-distance differences are affine along the
segment, so `T` stays the first minimiser), hence no other tile and no
bridge is ever added. -/
theorem c8_same_tile_singleton {α : Type} [DecidableEq α] [Inhabited α]
    (lib : H3Lib α) (ml : MathLib) (hexagons : List α) (lat_correction : ℚ)
    (hnd : hexagons.Nodup) (lon1 lat1 lon2 lat2 : ℚ) (T : α)
    (hin1 : (hexEnv lib hexagons).contains lat1 lon1)
    (hin2 : (hexEnv lib hexagons).contains lat2 lon2)
    (h1 : find_nearest_hex_fast lat1 lon1
      (build_hex_spatial_index lib hexagons) lat_correction = some T)
    (h2 : find_nearest_hex_fast lat2 lon2
      (build_hex_spatial_index lib hexagons) lat_correction = some T) :
    snap_rivers_to_hexes lib ml [[(lon1, lat1), (lon2, lat2)]] hexagons
      lat_correction = {T} := by
  have hndk : ((build_hex_spatial_index lib hexagons).map Prod.fst).Nodup := by
    unfold build_hex_spatial_index
    rw [map_fst_map_pair]
    exact hnd
  set env := hexEnv lib hexagons with henv
  set positions := build_hex_spatial_index lib hexagons with hpos
  set avg := lib.average_hexagon_edge_length (lib.get_resolution hexagons.headI)
    with havg
  set N := riverNumPoints ml avg lon1 lat1 lon2 lat2 with hN
  have hNpos : 0 < N := by
    rw [hN]
    unfold riverNumPoints
    exact lt_of_lt_of_le (by norm_num) (le_max_left 10 _)
  have hgood : ∀ j : Nat, j ≤ N.toNat →
      env.contains (sampleLat lat1 lat2 N j) (sampleLon lon1 lon2 N j) ∧
      find_nearest_hex_fast (sampleLat lat1 lat2 N j) (sampleLon lon1 lon2 N j)
        positions lat_correction = some T := by
    intro j hj
    obtain ⟨ht0, ht1⟩ := sample_t_bounds N hNpos j hj
    obtain ⟨ha1, ha2, ha3, ha4⟩ := hin1
    obtain ⟨hb1, hb2, hb3, hb4⟩ := hin2
    refine ⟨⟨?_, ?_, ?_, ?_⟩, ?_⟩
    · exact lerp_lower _ _ _ _ ht0 ht1 ha1 hb1
    · exact lerp_upper _ _ _ _ ht0 ht1 ha2 hb2
    · exact lerp_lower _ _ _ _ ht0 ht1 ha3 hb3
    · exact lerp_upper _ _ _ _ ht0 ht1 ha4 hb4
    · unfold sampleLat sampleLon
      exact find_nearest_lerp positions hndk lat1 lon1 lat2 lon2 lat_correction
        ((j : ℚ) / (N : ℚ)) ht0 ht1 T h1 h2
  have hseg : snap_rivers_to_hexes lib ml [[(lon1, lat1), (lon2, lat2)]]
      hexagons lat_correction =
      ((List.range (N.toNat + 1)).foldl
        (riverSample lib env positions lat_correction lon1 lat1 lon2 lat2 N)
        (∅, none)).1 := by
    unfold snap_rivers_to_hexes
    simp only [List.foldl_cons, List.foldl_nil]
    show riverSegment lib ml env positions lat_correction avg ∅
      ((lon1, lat1), (lon2, lat2)) = _
    unfold riverSegment
    rw [if_pos (Or.inl hin1)]
  rw [hseg]
  rw [List.range_succ_eq_map, List.foldl_cons]
  rw [riverSample_first lib env positions lat_correction lon1 lat1 lon2 lat2 N T 0
    (hgood 0 (Nat.zero_le _)).1 (hgood 0 (Nat.zero_le _)).2]
  rw [riverSampleFold_const lib env positions lat_correction lon1 lat1 lon2 lat2 N T _
    (fun j hj => hgood j (by
      obtain ⟨i, hi, rfl⟩ := List.mem_map.1 hj
      exact Nat.succ_le_of_lt (List.mem_range.1 hi)))]


/-- A concrete `MathLib` used to instantiate the snapping theorems. -/
def demoMath : MathLib where
  cosdeg := fun _ => 1
  sqrt := fun _ => 0

/-- Witness for C8: with `demoLib`, centres `(1/2, 1/2)` (tile 0) and `(0, 0)`
(tile 1), the segment from `(0, 0)` to `(1/8, 1/8)` has both endpoints
nearest to tile 1, and snapping it yields exactly `{1}`. -/
theorem c8_witness :
    snap_rivers_to_hexes demoLib demoMath [[(0, 0), (1/8, 1/8)]] [0, 1] 1 =
      ({1} : Finset Nat) :=
  c8_same_tile_singleton demoLib demoMath [0, 1] 1 (by decide) 0 0 (1/8) (1/8) 1
    (by with_unfolding_all decide)
    (by with_unfolding_all decide)
    (by with_unfolding_all decide)
    (by with_unfolding_all decide)

/-! ## PolygonSnapper: `point_in_polygon` and `snap_lakes_to_hexes` -/

/-- The closing edge list of a ring: pairs `(coords[i], coords[(i+1) % n])`
for `i = 0 .. n-1`. -/
def ringEdges (ring : List (ℚ × ℚ)) : List ((ℚ × ℚ) × ℚ × ℚ) :=
  ring.zip (ring.tail ++ [ring.headI])

/-- Whether the ray cast toggles at one edge.  The source guards the
`xinters` assignment with `p1_lat != p2_lat`; when the bracket test holds the
latitudes always differ (a horizontal edge has an empty open-closed bracket),
so the assignment is always fresh when read and the `p1_lat = p2_lat` branch
below is unreachable. -/
def pipEdgeToggle (x y : ℚ) (p1 p2 : ℚ × ℚ) : Bool :=
  if min p1.2 p2.2 < y ∧ y ≤ max p1.2 p2.2 ∧ x ≤ max p1.1 p2.1 then
    decide (p1.1 = p2.1 ∨ x ≤ (y - p1.2) * (p2.1 - p1.1) / (p2.2 - p1.2) + p1.1)
  else false

/-- `point_in_polygon(pt_lon, pt_lat, poly_coords)`: even-odd ray casting. -/
def point_in_polygon (x y : ℚ) (poly : List (ℚ × ℚ)) : Bool :=
  (ringEdges poly).foldl
    (fun inside e => if pipEdgeToggle x y e.1 e.2 then !inside else inside) false

/-- `num_points = max(5, int(edge_length / (avg_hex_edge * 0.3)))` for a ring
edge of `trace_ring`. -/
def lakeNumPoints (ml : MathLib) (avg_hex_edge : ℚ) (lon1 lat1 lon2 lat2 : ℚ) : Int :=
  let lat_avg := (lat1 + lat2) / 2
  let dx := (lon2 - lon1) * 111320 * |ml.cosdeg lat_avg|
  let dy := (lat2 - lat1) * 111320
  let edge_length := ml.sqrt (dx ^ 2 + dy ^ 2)
  max 5 (pyInt (edge_length / (avg_hex_edge * (3 / 10))))

/-- One sample of `trace_ring`: nearest is looked up among the candidate
subset; a failed lookup clears the tracker; boundary tiles and bridges are
added only when tracing an exterior ring (`is_hole = false`). -/
def traceSample {α : Type} [DecidableEq α] (lib : H3Lib α)
    (candidates : List (α × ℚ × ℚ)) (lat_correction : ℚ) (is_hole : Bool)
    (lon1 lat1 lon2 lat2 : ℚ) (num_points : Int)
    (st : Finset α × Option α) (j : Nat) : Finset α × Option α :=
  let pt_lon := sampleLon lon1 lon2 num_points j
  let pt_lat := sampleLat lat1 lat2 num_points j
  match find_nearest_hex_fast pt_lat pt_lon candidates lat_correction with
  | none => (st.1, none)
  | some nearest =>
    let S := if is_hole then st.1 else insert nearest st.1
    let S2 :=
      match st.2 with
      | some prev =>
        if prev ≠ nearest then
          if is_hole then S else S ∪ bridgeSet lib prev nearest
        else S
      | none => S
    (S2, some nearest)

/-- One ring edge of `trace_ring`: adaptive sampling along the edge. -/
def traceEdge {α : Type} [DecidableEq α] (lib : H3Lib α) (ml : MathLib)
    (candidates : List (α × ℚ × ℚ)) (lat_correction avg_hex_edge : ℚ)
    (is_hole : Bool) (S : Finset α) (e : (ℚ × ℚ) × ℚ × ℚ) : Finset α :=
  let lon1 := e.1.1
  let lat1 := e.1.2
  let lon2 := e.2.1
  let lat2 := e.2.2
  let num_points := lakeNumPoints ml avg_hex_edge lon1 lat1 lon2 lat2
  ((List.range (num_points.toNat + 1)).foldl
    (traceSample lib candidates lat_correction is_hole lon1 lat1 lon2 lat2
      num_points)
    (S, none)).1

/-- `trace_ring(ring_coords, is_hole)`. -/
def trace_ring {α : Type} [DecidableEq α] (lib : H3Lib α) (ml : MathLib)
    (candidates : List (α × ℚ × ℚ)) (lat_correction avg_hex_edge : ℚ)
    (ring : List (ℚ × ℚ)) (is_hole : Bool) (S : Finset α) : Finset α :=
  (ringEdges ring).foldl
    (traceEdge lib ml candidates lat_correction avg_hex_edge is_hole) S

/-- The interior-fill loop body: a candidate not already collected is added
when its centre passes the even-odd test for the exterior ring and fails it
for every hole ring. -/
def lakeFillStep {α : Type} [DecidableEq α] (main_ring : List (ℚ × ℚ))
    (hole_rings : List (List (ℚ × ℚ))) (S : Finset α) (cand : α × ℚ × ℚ) :
    Finset α :=
  if cand.1 ∈ S then S
  else if point_in_polygon cand.2.2 cand.2.1 main_ring then
    if hole_rings.any (fun hole => point_in_polygon cand.2.2 cand.2.1 hole) then S
    else insert cand.1 S
  else S

/-- Processing of one lake: bounding-box prefilter, boundary tracing of the
exterior ring and of the holes, then interior fill over the candidates. -/
def processLake {α : Type} [DecidableEq α] (lib : H3Lib α) (ml : MathLib)
    (env : Env) (hex_positions : List (α × ℚ × ℚ))
    (lat_correction avg_hex_edge : ℚ) (S : Finset α)
    (lake : List (List (ℚ × ℚ))) : Finset α :=
  if lake = [] then S
  else
    let main_ring := lake.headI
    let hole_rings := lake.tail
    let lake_lat_min := pyMin (main_ring.map Prod.snd)
    let lake_lat_max := pyMax (main_ring.map Prod.snd)
    let lake_lon_min := pyMin (main_ring.map Prod.fst)
    let lake_lon_max := pyMax (main_ring.map Prod.fst)
    if lake_lat_max < env.lat_min ∨ env.lat_max < lake_lat_min ∨
        lake_lon_max < env.lon_min ∨ env.lon_max < lake_lon_min then S
    else
      let candidates := hex_positions.filter (fun e =>
        decide (lake_lat_min ≤ e.2.1 ∧ e.2.1 ≤ lake_lat_max ∧
          lake_lon_min ≤ e.2.2 ∧ e.2.2 ≤ lake_lon_max))
      if candidates = [] then S
      else
        let S1 := trace_ring lib ml candidates lat_correction avg_hex_edge
          main_ring false S
        let S2 := hole_rings.foldl (fun s hole =>
          trace_ring lib ml candidates lat_correction avg_hex_edge hole true s) S1
        candidates.foldl (lakeFillStep main_ring hole_rings) S2

/-- `snap_lakes_to_hexes`: a lake is a list of rings (exterior first), the
GeoJSON `"type": "Polygon"` tag being carried by the Lean type itself. -/
def snap_lakes_to_hexes {α : Type} [DecidableEq α] [Inhabited α]
    (lib : H3Lib α) (ml : MathLib) (lakes : List (List (List (ℚ × ℚ))))
    (hexagons : List α) (lat_correction : ℚ) : Finset α :=
  let env := hexEnv lib hexagons
  let hex_positions := build_hex_spatial_index lib hexagons
  let avg_hex_edge := lib.average_hexagon_edge_length
    (lib.get_resolution hexagons.headI)
  lakes.foldl (processLake lib ml env hex_positions lat_correction avg_hex_edge) ∅

/-! ## Monotonicity of the lake-snapping folds -/

theorem foldl_pair_fst_subset {α β γ : Type _} [DecidableEq α]
    (f : Finset α × Option γ → β → Finset α × Option γ)
    (hf : ∀ st x, st.1 ⊆ (f st x).1) :
    ∀ (l : List β) (st : Finset α × Option γ), st.1 ⊆ (l.foldl f st).1 := by
  intro l
  induction l with
  | nil => intro st; exact subset_rfl
  | cons x l ih =>
    intro st
    exact subset_trans (hf st x) (ih (f st x))

theorem foldl_finset_subset {α β : Type _} [DecidableEq α]
    (f : Finset α → β → Finset α) (hf : ∀ s x, s ⊆ f s x) :
    ∀ (l : List β) (s : Finset α), s ⊆ l.foldl f s := by
  intro l
  induction l with
  | nil => intro s; exact subset_rfl
  | cons x l ih =>
    intro s
    exact subset_trans (hf s x) (ih (f s x))

theorem traceSample_subset {α : Type} [DecidableEq α] (lib : H3Lib α)
    (candidates : List (α × ℚ × ℚ)) (c : ℚ) (is_hole : Bool)
    (lon1 lat1 lon2 lat2 : ℚ) (N : Int) (st : Finset α × Option α) (j : Nat) :
    st.1 ⊆ (traceSample lib candidates c is_hole lon1 lat1 lon2 lat2 N st j).1 := by
  obtain ⟨S0, pr⟩ := st
  cases hfn : find_nearest_hex_fast (sampleLat lat1 lat2 N j)
      (sampleLon lon1 lon2 N j) candidates c with
  | none =>
    simp only [traceSample, hfn]
    exact Finset.Subset.refl S0
  | some nearest =>
    simp only [traceSample, hfn]
    cases pr <;> cases is_hole <;> dsimp only <;> split_ifs <;>
      first
        | exact Finset.Subset.refl S0
        | exact Finset.subset_insert _ _
        | exact Finset.subset_union_left
        | exact subset_trans (Finset.subset_insert _ _) Finset.subset_union_left

theorem traceEdge_subset {α : Type} [DecidableEq α] (lib : H3Lib α)
    (ml : MathLib) (candidates : List (α × ℚ × ℚ)) (c avg : ℚ)
    (is_hole : Bool) (S : Finset α) (e : (ℚ × ℚ) × ℚ × ℚ) :
    S ⊆ traceEdge lib ml candidates c avg is_hole S e := by
  unfold traceEdge
  exact foldl_pair_fst_subset _
    (fun st j => traceSample_subset lib candidates c is_hole _ _ _ _ _ st j) _ (S, none)

theorem trace_ring_subset {α : Type} [DecidableEq α] (lib : H3Lib α)
    (ml : MathLib) (candidates : List (α × ℚ × ℚ)) (c avg : ℚ)
    (ring : List (ℚ × ℚ)) (is_hole : Bool) (S : Finset α) :
    S ⊆ trace_ring lib ml candidates c avg ring is_hole S := by
  unfold trace_ring
  exact foldl_finset_subset _
    (fun s e => traceEdge_subset lib ml candidates c avg is_hole s e) _ S

theorem lakeFillStep_subset {α : Type} [DecidableEq α]
    (main_ring : List (ℚ × ℚ)) (hole_rings : List (List (ℚ × ℚ)))
    (S : Finset α) (cand : α × ℚ × ℚ) :
    S ⊆ lakeFillStep main_ring hole_rings S cand := by
  unfold lakeFillStep
  split_ifs <;> first | exact subset_rfl | exact Finset.subset_insert _ _

theorem processLake_subset {α : Type} [DecidableEq α] (lib : H3Lib α)
    (ml : MathLib) (env : Env) (hex_positions : List (α × ℚ × ℚ))
    (c avg : ℚ) (S : Finset α) (lake : List (List (ℚ × ℚ))) :
    S ⊆ processLake lib ml env hex_positions c avg S lake := by
  simp only [processLake]
  split_ifs
  · exact Finset.Subset.refl S
  · exact Finset.Subset.refl S
  · exact Finset.Subset.refl S
  · refine subset_trans (trace_ring_subset lib ml (hex_positions.filter (fun e =>
        decide (pyMin (lake.headI.map Prod.snd) ≤ e.2.1 ∧
          e.2.1 ≤ pyMax (lake.headI.map Prod.snd) ∧
          pyMin (lake.headI.map Prod.fst) ≤ e.2.2 ∧
          e.2.2 ≤ pyMax (lake.headI.map Prod.fst)))) c avg lake.headI false S) ?_
    refine subset_trans (foldl_finset_subset _
      (fun s hole => trace_ring_subset lib ml (hex_positions.filter (fun e =>
        decide (pyMin (lake.headI.map Prod.snd) ≤ e.2.1 ∧
          e.2.1 ≤ pyMax (lake.headI.map Prod.snd) ∧
          pyMin (lake.headI.map Prod.fst) ≤ e.2.2 ∧
          e.2.2 ≤ pyMax (lake.headI.map Prod.fst)))) c avg hole true s)
      lake.tail _) ?_
    exact foldl_finset_subset _ (fun s cand => lakeFillStep_subset _ _ s cand) _ _

theorem lakeFill_mem {α : Type} [DecidableEq α] (main_ring : List (ℚ × ℚ))
    (cands : List (α × ℚ × ℚ)) (cand : α × ℚ × ℚ) (hc : cand ∈ cands)
    (hpip : point_in_polygon cand.2.2 cand.2.1 main_ring = true) :
    ∀ S0 : Finset α, cand.1 ∈ cands.foldl (lakeFillStep main_ring []) S0 := by
  induction cands with
  | nil => cases hc
  | cons d rest ih =>
    intro S0
    rw [List.foldl_cons]
    rcases List.mem_cons.1 hc with rfl | hc
    · have hstep : cand.1 ∈ lakeFillStep main_ring [] S0 cand := by
        unfold lakeFillStep
        by_cases hin : cand.1 ∈ S0
        · rw [if_pos hin]; exact hin
        · rw [if_neg hin, if_pos hpip]
          rw [if_neg (by simp : ¬(List.any [] (fun hole =>
            point_in_polygon cand.2.2 cand.2.1 hole) = true))]
          exact Finset.mem_insert_self _ _
      exact (foldl_finset_subset _ (fun s x => lakeFillStep_subset _ _ s x)
        rest _) hstep
    · exact ih hc _

/-- A candidate tile whose centre passes the even-odd test for a hole-free
lake ends up in `processLake`'s output. -/
theorem processLake_mem {α : Type} [DecidableEq α] (lib : H3Lib α)
    (ml : MathLib) (env : Env) (hex_positions : List (α × ℚ × ℚ))
    (c avg : ℚ) (S : Finset α) (main_ring : List (ℚ × ℚ))
    (cand : α × ℚ × ℚ) (hpos : cand ∈ hex_positions)
    (henv1 : env.lat_min ≤ cand.2.1) (henv2 : cand.2.1 ≤ env.lat_max)
    (henv3 : env.lon_min ≤ cand.2.2) (henv4 : cand.2.2 ≤ env.lon_max)
    (hbb1 : pyMin (main_ring.map Prod.snd) ≤ cand.2.1)
    (hbb2 : cand.2.1 ≤ pyMax (main_ring.map Prod.snd))
    (hbb3 : pyMin (main_ring.map Prod.fst) ≤ cand.2.2)
    (hbb4 : cand.2.2 ≤ pyMax (main_ring.map Prod.fst))
    (hpip : point_in_polygon cand.2.2 cand.2.1 main_ring = true) :
    cand.1 ∈ processLake lib ml env hex_positions c avg S [main_ring] := by
  simp only [processLake]
  rw [if_neg (by simp : ¬([main_ring] = ([] : List (List (ℚ × ℚ)))))]
  simp only [List.headI_cons, List.tail_cons]
  rw [if_neg (by push_neg; exact ⟨le_trans henv1 hbb2, le_trans hbb1 henv2,
    le_trans henv3 hbb4, le_trans hbb3 henv4⟩)]
  have hcand : cand ∈ hex_positions.filter (fun e =>
      decide (pyMin (main_ring.map Prod.snd) ≤ e.2.1 ∧
        e.2.1 ≤ pyMax (main_ring.map Prod.snd) ∧
        pyMin (main_ring.map Prod.fst) ≤ e.2.2 ∧
        e.2.2 ≤ pyMax (main_ring.map Prod.fst))) := by
    rw [List.mem_filter]
    exact ⟨hpos, by simp only [decide_eq_true_eq]; exact ⟨hbb1, hbb2, hbb3, hbb4⟩⟩
  rw [if_neg (List.ne_nil_of_mem hcand)]
  simp only [List.foldl_nil]
  exact lakeFill_mem main_ring _ cand hcand hpip _

/-- **C6** (amended): the *inclusion* half of the claim holds: for a hole-free
lake polygon, every tile of the tile set whose centre lies in the lake's
bounding box and passes the even-odd ray-casting test for the exterior ring
(the specification's own notion of "inside") is in the output of
`snap_lakes_to_hexes`.  The exclusion half is false — see the
counterexample — because boundary tracing may add tiles whose centres lie
strictly outside the polygon. -/
theorem c6_lake_interior_included {α : Type} [DecidableEq α] [Inhabited α]
    (lib : H3Lib α) (ml : MathLib) (lakes : List (List (List (ℚ × ℚ))))
    (hexagons : List α) (lat_correction : ℚ) (main_ring : List (ℚ × ℚ))
    (hlake : [main_ring] ∈ lakes) (hex : α) (hmem : hex ∈ hexagons)
    (hbb1 : pyMin (main_ring.map Prod.snd) ≤ (lib.cell_to_latlng hex).1)
    (hbb2 : (lib.cell_to_latlng hex).1 ≤ pyMax (main_ring.map Prod.snd))
    (hbb3 : pyMin (main_ring.map Prod.fst) ≤ (lib.cell_to_latlng hex).2)
    (hbb4 : (lib.cell_to_latlng hex).2 ≤ pyMax (main_ring.map Prod.fst))
    (hpip : point_in_polygon (lib.cell_to_latlng hex).2
      (lib.cell_to_latlng hex).1 main_ring = true) :
    hex ∈ snap_lakes_to_hexes lib ml lakes hexagons lat_correction := by
  obtain ⟨pre, post, rfl⟩ := List.append_of_mem hlake
  unfold snap_lakes_to_hexes
  rw [List.foldl_append, List.foldl_cons]
  refine (foldl_finset_subset _ (fun s lk => processLake_subset lib ml
    (hexEnv lib hexagons) (build_hex_spatial_index lib hexagons)
    lat_correction _ s lk) post _) ?_
  have hcenter1 : (lib.cell_to_latlng hex).1 ∈
      hexagons.map (fun h => (lib.cell_to_latlng h).1) :=
    List.mem_map_of_mem _ hmem
  have hcenter2 : (lib.cell_to_latlng hex).2 ∈
      hexagons.map (fun h => (lib.cell_to_latlng h).2) :=
    List.mem_map_of_mem _ hmem
  refine processLake_mem lib ml (hexEnv lib hexagons)
    (build_hex_spatial_index lib hexagons) lat_correction _ _ main_ring
    (hex, lib.cell_to_latlng hex) ?_ ?_ ?_ ?_ ?_ hbb1 hbb2 hbb3 hbb4 hpip
  · exact List.mem_map_of_mem _ hmem
  · exact pyMin_le hcenter1
  · exact le_pyMax hcenter1
  · exact pyMin_le hcenter2
  · exact le_pyMax hcenter2

/-- A concrete library for the lake counterexample: tile 0 has centre
`(lat 3, lon 3)` and tile 1 has centre `(lat 1/2, lon 1/2)`. -/
def c6Lib : H3Lib Nat where
  latlng_to_cell := fun _ _ _ => 0
  cell_to_latlng := fun h => if h = 0 then (3, 3) else (1/2, 1/2)
  average_hexagon_edge_length := fun _ => 1
  grid_disk := fun c _ => [c]
  get_resolution := fun _ => 12
  grid_distance := fun _ _ => none
  grid_path_cells := fun _ _ => none

/-- **C6** (counterexample): the exclusion half of the claim is false.  For
the hole-free triangle `(0,0), (4,0), (0,4)` (vertices as `(lon, lat)`), tile
0 with centre `(lat 3, lon 3)` lies strictly outside the polygon — the
even-odd test is false, and indeed the whole triangle satisfies
`lon + lat ≤ 4` while the centre has `lon + lat = 6` — yet boundary tracing
snaps some hypotenuse samples to tile 0, so it appears in the output of
`snap_lakes_to_hexes`. -/
theorem c6_counterexample :
    0 ∈ snap_lakes_to_hexes c6Lib demoMath [[[(0, 0), (4, 0), (0, 4)]]] [0, 1] 1 ∧
    point_in_polygon 3 3 [(0, 0), (4, 0), (0, 4)] = false ∧
    ((0 : ℚ) + 0 ≤ 4 ∧ (4 : ℚ) + 0 ≤ 4 ∧ (0 : ℚ) + 4 ≤ 4 ∧ (3 : ℚ) + 3 > 4) := by
  refine ⟨?_, ?_, ?_⟩ <;> with_unfolding_all decide

/-- Witness for the amended C6: tile 1 with centre `(1/2, 1/2)` is inside the
triangle, and `snap_lakes_to_hexes` includes it. -/
theorem c6_witness :
    1 ∈ snap_lakes_to_hexes c6Lib demoMath [[[(0, 0), (4, 0), (0, 4)]]] [0, 1] 1 :=
  c6_lake_interior_included c6Lib demoMath [[[(0, 0), (4, 0), (0, 4)]]] [0, 1] 1
    [(0, 0), (4, 0), (0, 4)] (by decide) 1 (by decide)
    (by with_unfolding_all decide) (by with_unfolding_all decide)
    (by with_unfolding_all decide) (by with_unfolding_all decide)
    (by with_unfolding_all decide)

theorem zip_tail_nil_of_short {β : Type _} (l : List β) (h : l.length < 2) :
    l.zip l.tail = [] := by
  cases l with
  | nil => rfl
  | cons a l' =>
    cases l' with
    | nil => rfl
    | cons b l'' => simp at h; omega

/-! ## PolygonSnapper with the source's exceptions made explicit

The definitions above totalise two error paths of the source: Python's
`min()` raises `ValueError` on an empty sequence, and `point_in_polygon`
raises `IndexError` at `poly_coords[0]` on an empty ring.  The variants
below return `none` exactly where the source raises an uncaught exception
and agree with the total definitions everywhere else. -/

/-- Python `min()` over a list: `ValueError` (`none`) on an empty sequence,
otherwise the left fold from the first element. -/
def pyMinE (l : List ℚ) : Option ℚ :=
  match l with
  | [] => none
  | x :: xs => some (xs.foldl min x)

/-- `point_in_polygon` as the source runs it: reading `poly_coords[0]` raises
`IndexError` (`none`) on an empty ring; on a nonempty ring the function is
total and equals the even-odd fold above. -/
def point_in_polygonE (x y : ℚ) (poly : List (ℚ × ℚ)) : Option Bool :=
  match poly with
  | [] => none
  | _ :: _ => some (point_in_polygon x y poly)

/-- The hole-exclusion loop of the interior fill as the source runs it: the
holes are tested in order, the loop breaks at the first hole containing the
point, and testing an empty hole ring raises. -/
def anyHoleE (x y : ℚ) : List (List (ℚ × ℚ)) → Option Bool
  | [] => some false
  | r :: rs =>
    match point_in_polygonE x y r with
    | none => none
    | some b => if b then some true else anyHoleE x y rs

/-- The interior-fill body with exceptions: the membership test short-circuits
before any polygon test, then the exterior test, then the hole loop. -/
def lakeFillStepE {α : Type} [DecidableEq α] (main_ring : List (ℚ × ℚ))
    (hole_rings : List (List (ℚ × ℚ))) (S : Option (Finset α))
    (cand : α × ℚ × ℚ) : Option (Finset α) :=
  match S with
  | none => none
  | some s =>
    if cand.1 ∈ s then some s
    else
      match point_in_polygonE cand.2.2 cand.2.1 main_ring with
      | none => none
      | some pin =>
        if pin then
          match anyHoleE cand.2.2 cand.2.1 hole_rings with
          | none => none
          | some ph => if ph then some s else some (insert cand.1 s)
        else some s

/-- `processLake` with exceptions.  The source computes `min(lats)` before
anything else about the lake: it raises (`none`) exactly when the exterior
ring is empty, and past it the ring is nonempty, so the remaining three
extrema are the total folds.  The boundary tracing itself is total (an empty
ring has no edges to iterate). -/
def processLakeE {α : Type} [DecidableEq α] (lib : H3Lib α) (ml : MathLib)
    (env : Env) (hex_positions : List (α × ℚ × ℚ))
    (lat_correction avg_hex_edge : ℚ) (S : Option (Finset α))
    (lake : List (List (ℚ × ℚ))) : Option (Finset α) :=
  match S with
  | none => none
  | some s =>
    if lake = [] then some s
    else
      let main_ring := lake.headI
      let hole_rings := lake.tail
      match pyMinE (main_ring.map Prod.snd) with
      | none => none
      | some lake_lat_min =>
        let lake_lat_max := pyMax (main_ring.map Prod.snd)
        let lake_lon_min := pyMin (main_ring.map Prod.fst)
        let lake_lon_max := pyMax (main_ring.map Prod.fst)
        if lake_lat_max < env.lat_min ∨ env.lat_max < lake_lat_min ∨
            lake_lon_max < env.lon_min ∨ env.lon_max < lake_lon_min then some s
        else
          let candidates := hex_positions.filter (fun e =>
            decide (lake_lat_min ≤ e.2.1 ∧ e.2.1 ≤ lake_lat_max ∧
              lake_lon_min ≤ e.2.2 ∧ e.2.2 ≤ lake_lon_max))
          if candidates = [] then some s
          else
            let S1 := trace_ring lib ml candidates lat_correction avg_hex_edge
              main_ring false s
            let S2 := hole_rings.foldl (fun t hole =>
              trace_ring lib ml candidates lat_correction avg_hex_edge hole
                true t) S1
            candidates.foldl (lakeFillStepE main_ring hole_rings) (some S2)

/-- `snap_lakes_to_hexes` with exceptions: the first envelope extremum
`min(all_lats)` raises (`none`) exactly when `hexagons` is empty; past it the
envelope, the spatial index and `hexagons[0]` succeed and are the total
definitions. -/
def snap_lakes_to_hexesE {α : Type} [DecidableEq α] [Inhabited α]
    (lib : H3Lib α) (ml : MathLib) (lakes : List (List (List (ℚ × ℚ))))
    (hexagons : List α) (lat_correction : ℚ) : Option (Finset α) :=
  if hexagons = [] then none
  else
    let env := hexEnv lib hexagons
    let hex_positions := build_hex_spatial_index lib hexagons
    let avg_hex_edge := lib.average_hexagon_edge_length
      (lib.get_resolution hexagons.headI)
    lakes.foldl
      (processLakeE lib ml env hex_positions lat_correction avg_hex_edge)
      (some ∅)

theorem pyMinE_eq {l : List ℚ} (h : l ≠ []) : pyMinE l = some (pyMin l) := by
  cases l with
  | nil => exact absurd rfl h
  | cons x xs =>
    simp only [pyMinE, pyMin, List.headI_cons, List.foldl_cons, min_self]

theorem point_in_polygonE_eq {x y : ℚ} {poly : List (ℚ × ℚ)} (h : poly ≠ []) :
    point_in_polygonE x y poly = some (point_in_polygon x y poly) := by
  cases poly with
  | nil => exact absurd rfl h
  | cons p ps => rfl

theorem anyHoleE_eq (x y : ℚ) (holes : List (List (ℚ × ℚ)))
    (h : ∀ r ∈ holes, r ≠ []) :
    anyHoleE x y holes = some (holes.any (fun r => point_in_polygon x y r)) := by
  induction holes with
  | nil => rfl
  | cons r rs ih =>
    have hr : r ≠ [] := h r (List.mem_cons_self r rs)
    have ih2 := ih (fun t ht => h t (List.mem_cons_of_mem r ht))
    cases hpr : point_in_polygon x y r with
    | true =>
      simp only [anyHoleE, point_in_polygonE_eq hr, hpr, List.any_cons,
        if_true, Bool.true_or]
    | false =>
      simp only [anyHoleE, point_in_polygonE_eq hr, hpr, List.any_cons,
        if_false, Bool.false_or, ih2]
      rfl

theorem lakeFillStepE_eq {α : Type} [DecidableEq α] {main_ring : List (ℚ × ℚ)}
    {hole_rings : List (List (ℚ × ℚ))} (hm : main_ring ≠ [])
    (hh : ∀ r ∈ hole_rings, r ≠ []) (s : Finset α) (cand : α × ℚ × ℚ) :
    lakeFillStepE main_ring hole_rings (some s) cand =
      some (lakeFillStep main_ring hole_rings s cand) := by
  simp only [lakeFillStepE, lakeFillStep, point_in_polygonE_eq hm,
    anyHoleE_eq cand.2.2 cand.2.1 hole_rings hh]
  split_ifs <;> rfl

theorem lakeFillFoldE_eq {α : Type} [DecidableEq α] {main_ring : List (ℚ × ℚ)}
    {hole_rings : List (List (ℚ × ℚ))} (hm : main_ring ≠ [])
    (hh : ∀ r ∈ hole_rings, r ≠ []) (l : List (α × ℚ × ℚ)) :
    ∀ s : Finset α,
      l.foldl (lakeFillStepE main_ring hole_rings) (some s) =
        some (l.foldl (lakeFillStep main_ring hole_rings) s) := by
  induction l with
  | nil => intro s; rfl
  | cons c cs ih =>
    intro s
    rw [List.foldl_cons, List.foldl_cons, lakeFillStepE_eq hm hh s c]
    exact ih _

theorem processLakeE_eq {α : Type} [DecidableEq α] (lib : H3Lib α)
    (ml : MathLib) (env : Env) (hex_positions : List (α × ℚ × ℚ))
    (lat_correction avg_hex_edge : ℚ) (s : Finset α)
    (lake : List (List (ℚ × ℚ))) (h : ∀ ring ∈ lake, ring ≠ []) :
    processLakeE lib ml env hex_positions lat_correction avg_hex_edge
        (some s) lake =
      some (processLake lib ml env hex_positions lat_correction avg_hex_edge
        s lake) := by
  cases lake with
  | nil => rfl
  | cons r rest =>
    have hr : r ≠ [] := h r (List.mem_cons_self r rest)
    have hrest : ∀ t ∈ rest, t ≠ [] := fun t ht =>
      h t (List.mem_cons_of_mem r ht)
    have hmap : r.map Prod.snd ≠ [] := fun hc => hr (by simpa using hc)
    have hne : (r :: rest : List (List (ℚ × ℚ))) ≠ [] := List.cons_ne_nil r rest
    simp only [processLakeE, processLake, if_neg hne, List.headI_cons,
      List.tail_cons, pyMinE_eq hmap]
    split_ifs with h1 h2
    · rfl
    · rfl
    · exact lakeFillFoldE_eq hr hrest _ _

theorem processLakeE_none {α : Type} [DecidableEq α] (lib : H3Lib α)
    (ml : MathLib) (env : Env) (hex_positions : List (α × ℚ × ℚ))
    (lat_correction avg_hex_edge : ℚ) (lake : List (List (ℚ × ℚ)))
    (hlk : lake ≠ []) (houter : lake.headI = []) :
    ∀ S, processLakeE lib ml env hex_positions lat_correction avg_hex_edge
      S lake = none := by
  intro S
  cases S with
  | none => rfl
  | some s =>
    simp only [processLakeE, if_neg hlk, houter, List.map_nil, pyMinE]

theorem foldl_none_absorb {β γ : Type _} (f : Option β → γ → Option β)
    (hf : ∀ a, f none a = none) (l : List γ) : l.foldl f none = none := by
  induction l with
  | nil => rfl
  | cons a t ih => rw [List.foldl_cons, hf a, ih]

theorem foldl_none_of_mem {β γ : Type _} (f : Option β → γ → Option β)
    (hf : ∀ a, f none a = none) {bad : γ} (hbad : ∀ S, f S bad = none) :
    ∀ (l : List γ), bad ∈ l → ∀ init, l.foldl f init = none := by
  intro l
  induction l with
  | nil => intro hmem; exact absurd hmem (List.not_mem_nil bad)
  | cons a t ih =>
    intro hmem init
    rw [List.foldl_cons]
    rcases List.mem_cons.mp hmem with rfl | hmem2
    · rw [hbad init]
      exact foldl_none_absorb f hf t
    · exact ih hmem2 (f init a)

theorem foldl_processLakeE_eq {α : Type} [DecidableEq α] (lib : H3Lib α)
    (ml : MathLib) (env : Env) (hex_positions : List (α × ℚ × ℚ))
    (lat_correction avg_hex_edge : ℚ) :
    ∀ (lakes : List (List (List (ℚ × ℚ)))),
      (∀ lake ∈ lakes, ∀ ring ∈ lake, ring ≠ []) →
      ∀ s : Finset α,
        lakes.foldl
            (processLakeE lib ml env hex_positions lat_correction avg_hex_edge)
            (some s) =
          some (lakes.foldl
            (processLake lib ml env hex_positions lat_correction avg_hex_edge)
            s) := by
  intro lakes
  induction lakes with
  | nil => intro _ s; rfl
  | cons lk lks ih =>
    intro h s
    rw [List.foldl_cons, List.foldl_cons,
      processLakeE_eq lib ml env hex_positions lat_correction avg_hex_edge s lk
        (h lk (List.mem_cons_self lk lks))]
    exact ih (fun t ht => h t (List.mem_cons_of_mem lk ht)) _

/-- A concrete library for the lake error-path instances: tile 0 sits at the
centre of the unit-10 square and tiles 1–4 at its edge midpoints, so the
boundary trace never snaps tile 0 but the interior fill reaches it. -/
def c7Lib : H3Lib Nat where
  latlng_to_cell := fun _ _ _ => 0
  cell_to_latlng := fun h =>
    if h = 0 then (5, 5)
    else if h = 1 then (0, 5)
    else if h = 2 then (5, 0)
    else if h = 3 then (10, 5)
    else (5, 10)
  average_hexagon_edge_length := fun _ => 1
  grid_disk := fun c _ => [c]
  get_resolution := fun _ => 12
  grid_distance := fun _ _ => none
  grid_path_cells := fun _ _ => none

/-- **C7** (counterexample): short geometry raises no error and partial tile
sets are returned.  A single 1-vertex river line yields no segment pair and
`snap_rivers_to_hexes` returns the empty set normally; a lake whose exterior
ring has only 2 vertices — fewer than the 3 the claim says must be fatal —
is processed by the exception-aware snapper without any exception and even
contributes a tile to the returned set. -/
theorem c7_counterexample :
    snap_rivers_to_hexes demoLib demoMath [[(0, 0)]] [0, 1] 1 = (∅ : Finset Nat) ∧
    snap_lakes_to_hexesE c6Lib demoMath [[[(0, 0), (1, 1)]]] [0, 1] 1 =
      some {1} ∧
    ([((0 : ℚ), (0 : ℚ)), (1, 1)] : List (ℚ × ℚ)).length < 3 := by
  refine ⟨?_, ?_, ?_⟩ <;> with_unfolding_all decide

/-- **C7** (amended): no `EmptyGeometryError` exists and short geometry is not
validated.  LineSnapper: a line with fewer than 2 vertices yields no segment
pair, so removing it leaves the output unchanged — the snap returns normally.
PolygonSnapper, with the source's exceptions modelled explicitly
(`snap_lakes_to_hexesE`): when every ring of every lake is nonempty —
including rings of only 1 or 2 vertices — no exception is raised and the run
agrees with the total model; but a lake whose exterior ring is empty aborts
the whole snap with an uncaught `ValueError` from `min()` of an empty
sequence, and an empty hole ring aborts the interior fill with an uncaught
`IndexError` in `point_in_polygon` (last conjunct, on a concrete square lake
with an empty hole) — generic fatal exceptions, not the specified
`EmptyGeometryError`. -/
theorem c7_short_geometry_unvalidated {α : Type} [DecidableEq α] [Inhabited α]
    (lib : H3Lib α) (ml : MathLib)
    (line : List (ℚ × ℚ)) (pre post : List (List (ℚ × ℚ)))
    (rhex : List α) (rc : ℚ) (hline : line.length < 2)
    (lakes : List (List (List (ℚ × ℚ)))) (hexagons : List α) (c : ℚ)
    (hhex : hexagons ≠ [])
    (hne : ∀ lake ∈ lakes, ∀ ring ∈ lake, ring ≠ [])
    (lakes2 : List (List (List (ℚ × ℚ)))) (hexagons2 : List α) (c2 : ℚ)
    (lk2 : List (List (ℚ × ℚ))) (hmem : lk2 ∈ lakes2)
    (hlk : lk2 ≠ []) (houter : lk2.headI = []) :
    (snap_rivers_to_hexes lib ml (pre ++ line :: post) rhex rc =
      snap_rivers_to_hexes lib ml (pre ++ post) rhex rc) ∧
    (snap_lakes_to_hexesE lib ml lakes hexagons c =
      some (snap_lakes_to_hexes lib ml lakes hexagons c)) ∧
    (snap_lakes_to_hexesE lib ml lakes2 hexagons2 c2 = none) ∧
    (snap_lakes_to_hexesE c7Lib demoMath
      [[[(0, 0), (10, 0), (10, 10), (0, 10)], []]] [0, 1, 2, 3, 4] 1 =
      none) := by
  refine ⟨?_, ?_, ?_, ?_⟩
  · unfold snap_rivers_to_hexes
    rw [List.foldl_append, List.foldl_append, List.foldl_cons]
    simp only [zip_tail_nil_of_short line hline, List.foldl_nil]
  · simp only [snap_lakes_to_hexesE, snap_lakes_to_hexes, if_neg hhex]
    exact foldl_processLakeE_eq lib ml _ _ _ _ lakes hne ∅
  · by_cases hh2 : hexagons2 = []
    · simp only [snap_lakes_to_hexesE, if_pos hh2]
    · simp only [snap_lakes_to_hexesE, if_neg hh2]
      exact foldl_none_of_mem _ (fun a => rfl)
        (processLakeE_none lib ml _ _ c2 _ lk2 hlk houter) lakes2 hmem _
  · with_unfolding_all decide

theorem c7_witness :
    (snap_rivers_to_hexes c6Lib demoMath ([] ++ [(0, 0)] :: []) [0, 1] 1 =
      snap_rivers_to_hexes c6Lib demoMath ([] ++ []) [0, 1] 1) ∧
    (snap_lakes_to_hexesE c6Lib demoMath [[[(0, 0), (4, 0)]]] [0, 1] 1 =
      some (snap_lakes_to_hexes c6Lib demoMath [[[(0, 0), (4, 0)]]] [0, 1] 1)) ∧
    (snap_lakes_to_hexesE c6Lib demoMath [[[]]] [0, 1] 1 = none) ∧
    (snap_lakes_to_hexesE c7Lib demoMath
      [[[(0, 0), (10, 0), (10, 10), (0, 10)], []]] [0, 1, 2, 3, 4] 1 =
      none) :=
  c7_short_geometry_unvalidated c6Lib demoMath [(0, 0)] [] [] [0, 1] 1
    (by decide) [[[(0, 0), (4, 0)]]] [0, 1] 1 (by decide) (by decide)
    [[[]]] [0, 1] 1 [[]] (by decide) (by decide) rfl

end Hexwater
